import Mathlib

/-!
Shallow embedding of the .NET (CLI metadata) parser of
`src/yara-4.2.3/libyara/modules/dotnet/dotnet.c` (as vendored by the
InteYara repository), together with theorems settling the claims about it.

Modelling conventions:

* The input is an untrusted byte buffer `data` of declared size
  `data.length`; a byte is read as `data.getD i 0 % 256`, so every list of
  naturals denotes a byte buffer.
* The PE-level collaborators (`pe_get_directory_entry`, `pe_rva_to_offset`,
  the `IS_64BITS_PE` / `Characteristics` / `NumberOfRvaAndSizes` /
  `AddressOfEntryPoint` header fields) are out of scope per the spec, so they
  are oracle fields of the `PEImage` structure.
* Every dereference of the buffer performed by the C code goes through the
  partial reads `readLE` / `readBytes`, which return `none` exactly when a
  byte outside `[0, data_size)` would be touched.  A parsing function
  therefore returns `none` iff the C code would perform an out-of-bounds
  read; parse *failures* of the C code are ordinary values (the C code
  absorbs them into partial output).  Struct sizes and field offsets
  (for example `sizeof(CLI_HEADER) = 72`, `sizeof(NET_METADATA) = 16`,
  `sizeof(STREAM_HEADER) = 8`, `sizeof(TILDE_HEADER) = 24`) are those of the
  packed structures of `yara/dotnet.h`, which is part of the repository's
  vendored yara but not under `src/`; the spec documents the same layout.
* Scans that are bounded by construction in the C code (the `memmem`
  searches for a NUL terminator inside an already-bounds-checked window)
  are modelled as pure list operations on the in-bounds slice.
-/

namespace Dotnet

/-- The parser's view of a module: the raw byte buffer plus the oracles for
the out-of-scope PE collaborators (directory lookup, RVA translation and the
few PE header fields the probe consults). -/
structure PEImage where
  data : List Nat
  comDir : Option Nat
  rvaToOff : Nat → Int
  is64 : Bool
  isDll : Bool
  numberOfRvaAndSizes : Nat
  entryPointRVA : Nat

/-- Declared buffer size (`pe->data_size`). -/
def dataSize (pe : PEImage) : Int := (pe.data.length : Int)

/-- Byte at an in-range index; an arbitrary `Nat` entry denotes its low byte. -/
def byteAt (pe : PEImage) (i : Nat) : Nat := pe.data.getD i 0 % 256

/-- The bounds oracle `fits_in_pe(pe, pe->data + off, len)`. -/
def fits (pe : PEImage) (off : Int) (len : Nat) : Bool :=
  decide ((len : Int) ≤ dataSize pe ∧ 0 ≤ off ∧ off + len ≤ dataSize pe)

/-- Little-endian value of `k` bytes starting at (in-range) index `s`. -/
def leVal (pe : PEImage) (s : Nat) : Nat → Nat
  | 0 => 0
  | k + 1 => byteAt pe s + 256 * leVal pe (s + 1) k

/-- Checked little-endian read of `k` bytes at offset `off`; `none` means the
read would touch a byte outside `[0, data_size)`. -/
def readLE (pe : PEImage) (off : Int) (k : Nat) : Option Nat :=
  if 0 ≤ off ∧ off + (k : Int) ≤ dataSize pe then some (leVal pe off.toNat k)
  else none

/-- Checked read of `k` raw bytes at offset `off` (used for sized strings);
a zero-length read touches no byte and always succeeds. -/
def readBytes (pe : PEImage) (off : Int) (k : Nat) : Option (List Nat) :=
  if k = 0 then some []
  else if 0 ≤ off ∧ off + (k : Int) ≤ dataSize pe then
    some ((List.range k).map fun i => byteAt pe (off.toNat + i))
  else none

theorem fits_iff {pe : PEImage} {off : Int} {len : Nat} :
    fits pe off len = true ↔
      ((len : Int) ≤ dataSize pe ∧ 0 ≤ off ∧ off + len ≤ dataSize pe) := by
  simp [fits]

theorem byteAt_lt (pe : PEImage) (i : Nat) : byteAt pe i < 256 :=
  Nat.mod_lt _ (by norm_num)

theorem readLE_eq_some {pe : PEImage} {off : Int} {k : Nat}
    (h0 : 0 ≤ off) (h1 : off + (k : Int) ≤ dataSize pe) :
    readLE pe off k = some (leVal pe off.toNat k) := by
  simp [readLE, h0, h1]

theorem readLE_isSome {pe : PEImage} {off : Int} {k : Nat}
    (h0 : 0 ≤ off) (h1 : off + (k : Int) ≤ dataSize pe) :
    (readLE pe off k).isSome = true := by
  rw [readLE_eq_some h0 h1]; rfl

/-- A read of `k` bytes at displacement `d` inside a window that passed the
bounds oracle is in bounds. -/
theorem readLE_isSome_of_fits {pe : PEImage} {off : Int} {len : Nat}
    (hf : fits pe off len = true) {d k : Nat} (hdk : d + k ≤ len) :
    (readLE pe (off + (d : Int)) k).isSome = true := by
  rcases fits_iff.mp hf with ⟨-, h0, h1⟩
  refine readLE_isSome (by positivity) ?_
  have : ((d : Int) + (k : Int)) ≤ (len : Int) := by exact_mod_cast hdk
  omega

theorem readBytes_isSome {pe : PEImage} {off : Int} {k : Nat}
    (h0 : 0 ≤ off) (h1 : off + (k : Int) ≤ dataSize pe) :
    (readBytes pe off k).isSome = true := by
  unfold readBytes
  split
  · rfl
  · simp [h0, h1]

theorem readBytes_isSome_of_fits {pe : PEImage} {off : Int} {len : Nat}
    (hf : fits pe off len = true) {d k : Nat} (hdk : d + k ≤ len) :
    (readBytes pe (off + (d : Int)) k).isSome = true := by
  rcases fits_iff.mp hf with ⟨-, h0, h1⟩
  refine readBytes_isSome (by positivity) ?_
  have : ((d : Int) + (k : Int)) ≤ (len : Int) := by exact_mod_cast hdk
  omega

theorem readLE_one_lt {pe : PEImage} {off : Int} {b : Nat}
    (h : readLE pe off 1 = some b) : b < 256 := by
  unfold readLE at h
  split at h
  · cases h
    simpa [leVal] using byteAt_lt pe off.toNat
  · cases h

/-- The string-heap reader `pe_get_dotnet_string`: the NUL-terminated string
at `string_offset + string_index`, absent when the start is out of range, no
terminator exists inside the buffer, or the string exceeds 1024 bytes.  The
NUL scan is bounded by the buffer end by construction. -/
def pe_get_dotnet_string (pe : PEImage) (strOff : Int) (idx : Nat) :
    Option (List Nat) :=
  let start := strOff + (idx : Int)
  if 0 ≤ start ∧ start < dataSize pe then
    let s := start.toNat
    let window := (List.range (pe.data.length - s)).map fun i => byteAt pe (s + i)
    match window.findIdx? (· = 0) with
    | none => none
    | some k => if k > 1024 then none else some (window.take k)
  else none

/-- Result of `dotnet_parse_blob_entry`: decoded length and the number of
prefix bytes consumed (`size = 0` signals failure; the C code leaves `length`
uninitialised on failure and no caller reads it, so the model sets it to 0). -/
structure BlobRes where
  length : Nat
  size : Nat
deriving DecidableEq, Repr

/-- The ECMA-335 compressed-length decoder `dotnet_parse_blob_entry`. -/
def dotnet_parse_blob_entry (pe : PEImage) (off : Int) : Option BlobRes :=
  let dec : BlobRes → BlobRes := fun r =>
    if r.length > 0 then ⟨r.length - 1, r.size⟩ else r
  if ¬ fits pe off 1 then some ⟨0, 0⟩
  else do
    let b0 ← readLE pe off 1
    if b0 &&& 0x80 = 0 then
      pure (dec ⟨b0, 1⟩)
    else if b0 &&& 0xC0 = 0x80 then
      if ¬ fits pe off 2 then pure ⟨0, 0⟩
      else do
        let b1 ← readLE pe (off + 1) 1
        pure (dec ⟨((b0 &&& 0x3F) <<< 8) ||| b1, 2⟩)
    else if off + 4 < dataSize pe ∧ b0 &&& 0xE0 = 0xC0 then
      if ¬ fits pe off 4 then pure ⟨0, 0⟩
      else do
        let b1 ← readLE pe (off + 1) 1
        let b2 ← readLE pe (off + 2) 1
        let b3 ← readLE pe (off + 3) 1
        pure (dec ⟨((b0 &&& 0x1F) <<< 24) ||| (b1 <<< 16) ||| (b2 <<< 8) ||| b3, 4⟩)
    else
      pure ⟨0, 0⟩

theorem dotnet_parse_blob_entry_isSome (pe : PEImage) (off : Int) :
    (dotnet_parse_blob_entry pe off).isSome = true := by
  unfold dotnet_parse_blob_entry
  split
  · rfl
  next hfit =>
    rw [Bool.not_eq_true] at hfit
    have h1 : (readLE pe off 1).isSome = true := by
      have := @readLE_isSome_of_fits pe off 1 (by simpa using hfit) 0 1 (by omega)
      simpa using this
    obtain ⟨b0, hb0⟩ := Option.isSome_iff_exists.mp h1
    rw [hb0]
    simp only [Option.bind_eq_bind, Option.some_bind]
    split
    · rfl
    split
    · split
      · rfl
      next hfit2 =>
        rw [Bool.not_eq_true] at hfit2
        have h2 : (readLE pe (off + 1) 1).isSome = true := by
          have := @readLE_isSome_of_fits pe off 2 (by simpa using hfit2) 1 1 (by omega)
          simpa using this
        obtain ⟨b1, hb1⟩ := Option.isSome_iff_exists.mp h2
        rw [hb1]; rfl
    split
    · split
      · rfl
      next hfit4 =>
        rw [Bool.not_eq_true] at hfit4
        have hs : ∀ d : Nat, d < 4 →
            (readLE pe (off + (d : Int)) 1).isSome = true := by
          intro d hd
          exact @readLE_isSome_of_fits pe off 4 (by simpa using hfit4) d 1 (by omega)
        obtain ⟨b1, hb1⟩ := Option.isSome_iff_exists.mp (hs 1 (by omega))
        obtain ⟨b2, hb2⟩ := Option.isSome_iff_exists.mp (hs 2 (by omega))
        obtain ⟨b3, hb3⟩ := Option.isSome_iff_exists.mp (hs 3 (by omega))
        norm_num at hb1 hb2 hb3
        rw [hb1, hb2, hb3]; rfl
    · rfl

/-- One `assembly_refs[i]` entry: the four version integers are set
unconditionally once the row fits; `public_key_or_token` and `name` may be
skipped by the row's blob check. -/
structure AsmRefOut where
  major : Nat
  minor : Nat
  build : Nat
  revision : Nat
  publicKeyOrToken : Option (List Nat) := none
  name : Option (List Nat) := none
deriving DecidableEq, Repr

/-- One `resources[i]` entry. -/
structure ResourceOut where
  offset : Int
  length : Nat
  name : Option (List Nat) := none
deriving DecidableEq, Repr

/-- The caller-owned output record (the module's declared fields): `none` /
`[]` means the field was never set.  GUIDs are kept as their raw 16 bytes;
the hex rendering is a pure function of them and not needed by any claim. -/
structure Output where
  is_dotnet : Option Nat := none
  version : Option (List Nat) := none
  module_name : Option (List Nat) := none
  streams : List (List Nat × Int × Nat) := []
  number_of_streams : Option Nat := none
  guids : List (List Nat) := []
  number_of_guids : Option Nat := none
  resources : List ResourceOut := []
  number_of_resources : Option Nat := none
  assembly_refs : List AsmRefOut := []
  number_of_assembly_refs : Option Nat := none
  assembly_version : Option (Nat × Nat × Nat × Nat) := none
  assembly_name : Option (List Nat) := none
  assembly_culture : Option (List Nat) := none
  modulerefs : List (List Nat) := []
  number_of_modulerefs : Option Nat := none
  user_strings : List (List Nat) := []
  number_of_user_strings : Option Nat := none
  typelib : Option (List Nat) := none
  constants : List (List Nat) := []
  number_of_constants : Option Nat := none
  field_offsets : List Int := []
  number_of_field_offsets : Option Nat := none
deriving DecidableEq, Repr

/-- The empty output record. -/
def emptyOutput : Output := {}

/-- Loop body of `dotnet_parse_us`.  The cursor advances by at least one
byte per iteration and stays below `endOff`, so `fuel = ush_sz + 1` bounds
the iteration count; the fuel-exhausted branch is unreachable and returns
the loop-exit result. -/
def usLoop (pe : PEImage) (endOff : Int) :
    Nat → Int → Nat → List (List Nat) → Option (Nat × List (List Nat))
  | 0, _, i, acc => some (i, acc)
  | fuel + 1, off, i, acc =>
    if off < endOff then do
      let br ← dotnet_parse_blob_entry pe off
      if br.size = 0 then some (i, acc)
      else
        let off2 := off + (br.size : Int)
        if br.length > 0 ∧ fits pe off2 br.length then do
          let s ← readBytes pe off2 br.length
          usLoop pe endOff fuel (off2 + (br.length : Int)) (i + 1) (acc ++ [s])
        else usLoop pe endOff fuel off2 i acc
    else some (i, acc)

/-- The `#US` heap reader `dotnet_parse_us`. -/
def dotnet_parse_us (pe : PEImage) (metadataRoot : Int)
    (usOff usSize : Nat) (out : Output) : Option Output :=
  let off := metadataRoot + (usOff : Int)
  if usSize = 0 ∨ ¬ fits pe off usSize then some out
  else do
    let b ← readLE pe off 1
    if b ≠ 0 then some out
    else do
      let r ← usLoop pe (off + (usSize : Int)) (usSize + 1) (off + 1) 0 []
      some { out with user_strings := r.2, number_of_user_strings := some r.1 }

/-- Loop body of `dotnet_parse_guid`: 16-byte records while at least 16 bytes
of (capped) declared size remain and the record fits.  The capped size is at
most 256 and shrinks by 16 per iteration, so `fuel = 17` bounds the count. -/
def guidLoop (pe : PEImage) :
    Nat → Nat → Int → Nat → List (List Nat) → Option (Nat × List (List Nat))
  | 0, _, _, i, acc => some (i, acc)
  | fuel + 1, gsz, off, i, acc =>
    if 16 ≤ gsz ∧ fits pe off 16 then do
      let g ← readBytes pe off 16
      guidLoop pe fuel (gsz - 16) (off + 16) (i + 1) (acc ++ [g])
    else some (i, acc)

/-- The `#GUID` heap reader `dotnet_parse_guid` (raw 16-byte records; the
declared stream size is capped at 256, i.e. 16 GUIDs). -/
def dotnet_parse_guid (pe : PEImage) (metadataRoot : Int)
    (guidOff guidSize : Nat) (out : Output) : Option Output := do
  let r ← guidLoop pe 17 (min guidSize 256) (metadataRoot + (guidOff : Int)) 0 []
  some { out with guids := r.2, number_of_guids := some r.1 }

/-- A recognised stream reference: the header's declared `Offset` and `Size`
values (the C code keeps a pointer to the header; only these two fields of
it are ever read afterwards). -/
structure StreamRef where
  off : Nat
  size : Nat
deriving DecidableEq, Repr

/-- State of the stream-directory walk: emitted `(name, Offset, Size)`
records in order, plus the typed references captured for later parsing. -/
structure StreamsSt where
  recs : List (List Nat × Nat × Nat) := []
  tilde : Option StreamRef := none
  guid : Option StreamRef := none
  string : Option StreamRef := none
  blob : Option StreamRef := none
  us : Option StreamRef := none
deriving DecidableEq, Repr

/-- The test `strncmp(name, lit, lit.length) == 0` for a NUL-free literal:
the C string `name` starts with `lit`. -/
def strncmpEq (name lit : List Nat) : Bool := name.take lit.length == lit

/-- Name bytes of the five recognised streams. -/
def tildeName : List Nat := [0x23, 0x7E]

def dashName : List Nat := [0x23, 0x2D]

def guidName : List Nat := [0x23, 0x47, 0x55, 0x49, 0x44]

def stringsName : List Nat := [0x23, 0x53, 0x74, 0x72, 0x69, 0x6E, 0x67, 0x73]

def blobName : List Nat := [0x23, 0x42, 0x6C, 0x6F, 0x62]

def usName : List Nat := [0x23, 0x55, 0x53]

/-- The typed-reference update of one stream header (the else-if chain of
`dotnet_parse_stream_headers`): first occurrence wins for `#~`/`#-`,
`#Strings` and `#US`; every `#GUID` or `#Blob` occurrence overwrites. -/
def updateRefs (st : StreamsSt) (name : List Nat) (r : StreamRef) : StreamsSt :=
  if (strncmpEq name tildeName ∨ strncmpEq name dashName) ∧ st.tilde = none then
    { st with tilde := some r }
  else if strncmpEq name guidName then { st with guid := some r }
  else if strncmpEq name stringsName ∧ st.string = none then
    { st with string := some r }
  else if strncmpEq name blobName then { st with blob := some r }
  else if strncmpEq name usName ∧ st.us = none then { st with us := some r }
  else st

/-- Loop of `dotnet_parse_stream_headers`: per header, an 8-byte header
check, a 32-byte name window with a required NUL, record the stream, update
the typed references, and advance by `8 + strlen(name) + 4 - strlen % 4`. -/
def streamLoop (pe : PEImage) : Nat → Int → StreamsSt → Option StreamsSt
  | 0, _, st => some st
  | n + 1, hdrOff, st =>
    if ¬ fits pe hdrOff 8 then some st
    else if ¬ fits pe (hdrOff + 8) 32 then some st
    else do
      let window ← readBytes pe (hdrOff + 8) 32
      match window.findIdx? (· = 0) with
      | none => some st
      | some k => do
        let name := window.take k
        let offv ← readLE pe hdrOff 4
        let sizev ← readLE pe (hdrOff + 4) 4
        let st' := updateRefs { st with recs := st.recs ++ [(name, offv, sizev)] }
          name ⟨offv, sizev⟩
        streamLoop pe n (hdrOff + 8 + (k : Int) + 4 - ((k % 4 : Nat) : Int)) st'

/-- The stream-directory builder `dotnet_parse_stream_headers`; also fills
the `streams[]` report (offsets made metadata-root absolute) and
`number_of_streams`. -/
def dotnet_parse_stream_headers (pe : PEImage) (offset metadataRoot : Int)
    (numStreams : Nat) (out : Output) : Option (StreamsSt × Output) := do
  let st ← streamLoop pe numStreams offset {}
  some (st,
    { out with
      streams := st.recs.map fun r => (r.1, metadataRoot + (r.2.1 : Int), r.2.2)
      number_of_streams := some st.recs.length })

/-- Per-table row counts (the `ROWS` struct): zero-initialised, filled by the
first pass for the tables that are coded-index targets. -/
structure RowCounts where
  module : Nat := 0
  typeref : Nat := 0
  typedef_ : Nat := 0
  field : Nat := 0
  methoddef : Nat := 0
  param : Nat := 0
  interfaceimpl : Nat := 0
  memberref : Nat := 0
  property : Nat := 0
  event : Nat := 0
  standalonesig : Nat := 0
  moduleref : Nat := 0
  typespec : Nat := 0
  assembly : Nat := 0
  file : Nat := 0
  exportedtype : Nat := 0
  manifestresource : Nat := 0
  genericparam : Nat := 0
  methodspec : Nat := 0
  genericparamconstraint : Nat := 0
  assemblyref : Nat := 0
  assemblyrefprocessor : Nat := 0
deriving DecidableEq, Repr

/-- Per-table simple-index widths (the `INDEX_SIZES` struct): all default to
2 bytes; `string`/`guid`/`blob` come from the heap-size flags, the rest are
bumped to 4 by the first pass when the table has more than 0xFFFF rows. -/
structure IndexSizes where
  string : Nat := 2
  guid : Nat := 2
  blob : Nat := 2
  field : Nat := 2
  methoddef : Nat := 2
  memberref : Nat := 2
  param : Nat := 2
  event : Nat := 2
  typedef_ : Nat := 2
  moduleref : Nat := 2
  assemblyrefprocessor : Nat := 2
  assemblyref : Nat := 2
  genericparam : Nat := 2
  property : Nat := 2
deriving DecidableEq, Repr

/-- Bits handled by a `ROW_CHECK` case in the first pass of
`dotnet_parse_tilde` (bit numbers are the ECMA-335 table numbers used by the
`BIT_*` constants). -/
def pass1Tracked (bit : Nat) : Bool :=
  match bit with
  | 0 | 1 | 2 | 4 | 6 | 8 | 9 | 10 | 17 | 20 | 23 | 26 | 27 | 32 | 35 | 36
  | 38 | 39 | 40 | 42 | 43 | 44 => true
  | _ => false

/-- The `ROW_CHECK` / `ROW_CHECK_WITH_INDEX` update for one tracked bit with
row-count value `v`. -/
def pass1Set (bit v : Nat) (rows : RowCounts) (isz : IndexSizes) :
    RowCounts × IndexSizes :=
  match bit with
  | 0 => ({ rows with module := v }, isz)
  | 1 => ({ rows with typeref := v }, isz)
  | 2 => ({ rows with typedef_ := v },
          if v > 0xFFFF then { isz with typedef_ := 4 } else isz)
  | 4 => ({ rows with field := v },
          if v > 0xFFFF then { isz with field := 4 } else isz)
  | 6 => ({ rows with methoddef := v },
          if v > 0xFFFF then { isz with methoddef := 4 } else isz)
  | 8 => ({ rows with param := v },
          if v > 0xFFFF then { isz with param := 4 } else isz)
  | 9 => ({ rows with interfaceimpl := v }, isz)
  | 10 => ({ rows with memberref := v },
           if v > 0xFFFF then { isz with memberref := 4 } else isz)
  | 17 => ({ rows with standalonesig := v }, isz)
  | 20 => ({ rows with event := v },
           if v > 0xFFFF then { isz with event := 4 } else isz)
  | 23 => ({ rows with property := v },
           if v > 0xFFFF then { isz with property := 4 } else isz)
  | 26 => ({ rows with moduleref := v },
           if v > 0xFFFF then { isz with moduleref := 4 } else isz)
  | 27 => ({ rows with typespec := v }, isz)
  | 32 => ({ rows with assembly := v }, isz)
  | 35 => ({ rows with assemblyref := v },
           if v > 0xFFFF then { isz with assemblyref := 4 } else isz)
  | 36 => ({ rows with assemblyrefprocessor := v },
           if v > 0xFFFF then { isz with assemblyrefprocessor := 4 } else isz)
  | 38 => ({ rows with file := v }, isz)
  | 39 => ({ rows with exportedtype := v }, isz)
  | 40 => ({ rows with manifestresource := v }, isz)
  | 42 => ({ rows with genericparam := v },
           if v > 0xFFFF then { isz with genericparam := 4 } else isz)
  | 43 => ({ rows with methodspec := v }, isz)
  | 44 => ({ rows with genericparamconstraint := v }, isz)
  | _ => (rows, isz)

/-- First pass over the presence bitmask: for every set bit, if the bit has
a `ROW_CHECK` case and the row-count slot fits, read it (the slot of the
`matchedBits`-th set bit); `matchedBits` advances for every set bit. -/
def pass1Go (pe : PEImage) (valid : Nat) (rowOffB : Int) :
    List Nat → Nat → RowCounts → IndexSizes → Option (RowCounts × IndexSizes)
  | [], _, rows, isz => some (rows, isz)
  | bit :: rest, mb, rows, isz =>
    if (valid >>> bit) &&& 1 ≠ 1 then pass1Go pe valid rowOffB rest mb rows isz
    else if pass1Tracked bit then
      if fits pe rowOffB ((mb + 1) * 4) then do
        let v ← readLE pe (rowOffB + ((4 * mb : Nat) : Int)) 4
        let ri := pass1Set bit v rows isz
        pass1Go pe valid rowOffB rest (mb + 1) ri.1 ri.2
      else pass1Go pe valid rowOffB rest (mb + 1) rows isz
    else pass1Go pe valid rowOffB rest (mb + 1) rows isz

/-- Width of a `TypeDefOrRef` coded index (2 tag bits). -/
def typeDefOrRefSize (rows : RowCounts) : Nat :=
  if max rows.typedef_ (max rows.typeref rows.typespec) > 0xFFFF >>> 2 then 4
  else 2

/-- Width of a `ResolutionScope` coded index (2 tag bits), also the width of
the TypeRef row's leading column. -/
def resolutionScopeSize (rows : RowCounts) : Nat :=
  if max (max rows.module rows.moduleref) (max rows.assemblyref rows.typeref) >
      0xFFFF >>> 2 then 4
  else 2

/-- Width of the MemberRef row's `Class` coded index (3 tag bits). -/
def memberrefClassSize (rows : RowCounts) : Nat :=
  if max (max rows.methoddef rows.moduleref) (max rows.typeref rows.typespec) >
      0xFFFF >>> 3 then 4
  else 2

/-- Width of the Constant row's `Parent` coded index (2 tag bits). -/
def constantParentSize (rows : RowCounts) : Nat :=
  if max rows.param (max rows.field rows.property) > 0xFFFF >>> 2 then 4 else 2

/-- Width of the CustomAttribute row's `Parent` coded index (5 tag bits over
21 referenceable tables). -/
def caParentSize (rows : RowCounts) : Nat :=
  if max (max (max (max rows.methoddef rows.field) (max rows.typeref rows.typedef_))
          (max (max rows.param rows.interfaceimpl) (max rows.memberref rows.module)))
      (max (max (max rows.property rows.event) (max rows.standalonesig rows.moduleref))
        (max (max (max rows.typespec rows.assembly) (max rows.assemblyref rows.file))
          (max (max rows.exportedtype rows.manifestresource)
            (max rows.genericparam (max rows.genericparamconstraint rows.methodspec))))) >
      0xFFFF >>> 5 then 4
  else 2

/-- Width of the CustomAttribute row's `Type` coded index (3 tag bits). -/
def caTypeSize (rows : RowCounts) : Nat :=
  if max rows.methoddef rows.memberref > 0xFFFF >>> 3 then 4 else 2

/-- Width of the ManifestResource row's `Implementation` coded index. -/
def manifestImplSize (rows : RowCounts) : Nat :=
  if max rows.file rows.assemblyref > 0xFFFF >>> 2 then 4 else 2

/-- Row size of the TypeRef table as computed by the second pass. -/
def typerefRowSize (rows : RowCounts) (isz : IndexSizes) : Nat :=
  resolutionScopeSize rows + isz.string * 2

/-- Row size of the MemberRef table as computed by the second pass. -/
def memberrefRowSize (rows : RowCounts) (isz : IndexSizes) : Nat :=
  memberrefClassSize rows + isz.string + isz.blob

/-- Number of set bits of the 64-bit presence mask (the `valid_rows` count,
hence the length of the row-count array preceding the tables). -/
def popCount64 (v : Nat) : Nat :=
  (List.range 64).foldl (fun a i => a + ((v >>> i) &&& 1)) 0

/-- Context of the second pass `dotnet_parse_tilde_2`: everything fixed for
the whole pass.  `strOff` is the absolute offset of the `#Strings` stream,
`blobBase` the absolute offset of the `#Blob` stream. -/
structure T2Ctx where
  pe : PEImage
  valid : Nat
  rowOffB : Int
  resourceBase : Int
  rows : RowCounts
  isz : IndexSizes
  strOff : Int
  blobBase : Int

/-- Mutable state of the second pass: the table cursor, the count of set
bits processed so far, the TypeRef/MemberRef table bases captured mid-walk
(pointer and row size), and the output record. -/
structure T2St where
  tableOff : Int
  matchedBits : Nat
  typeref : Option (Int × Nat) := none
  memberref : Option (Int × Nat) := none
  out : Output

/-- Result of one table case: continue with the next set bit, or return from
the whole pass (the `default:` case of the switch). -/
inductive T2Res where
  | cont (s : T2St)
  | halt

/-- The Module case: `struct_fits_in_pe` over the 18-byte `MODULE_TABLE`
(an early `break` skips the cursor advance), then the Name string-heap
index at row offset 2. -/
def caseModule (c : T2Ctx) (numRows : Nat) (tableOff : Int) (out : Output) :
    Option (Int × Output) :=
  if ¬ fits c.pe tableOff 18 then some (tableOff, out)
  else do
    let idx ← readLE c.pe (tableOff + 2) c.isz.string
    let out' := match pe_get_dotnet_string c.pe c.strOff idx with
      | some nm => { out with module_name := some nm }
      | none => out
    some (tableOff + (((2 + c.isz.string + c.isz.guid * 3) * numRows : Nat) : Int), out')

/-- The Constant row loop: rows whose 16-bit Type is `ELEMENT_TYPE_STRING`
(0x0E) contribute their blob as `constants[counter]`. -/
def constantLoop (c : T2Ctx) (idxSize rowSize : Nat) :
    Nat → Int → Nat → List (List Nat) → Option (Nat × List (List Nat))
  | 0, _, counter, acc => some (counter, acc)
  | n + 1, rowPtr, counter, acc =>
    if ¬ fits c.pe rowPtr rowSize then some (counter, acc)
    else do
      let ty ← readLE c.pe rowPtr 2
      if ty ≠ 0x0E then constantLoop c idxSize rowSize n (rowPtr + rowSize) counter acc
      else do
        let bi ← readLE c.pe (rowPtr + 2 + (idxSize : Int)) c.isz.blob
        let blobOffset := c.blobBase + (bi : Int)
        let br ← dotnet_parse_blob_entry c.pe blobOffset
        if br.size = 0 then constantLoop c idxSize rowSize n (rowPtr + rowSize) counter acc
        else
          let bo := blobOffset + (br.size : Int)
          if bo + (br.length : Int) ≥ dataSize c.pe then
            constantLoop c idxSize rowSize n (rowPtr + rowSize) counter acc
          else do
            let bytes ← readBytes c.pe bo br.length
            constantLoop c idxSize rowSize n (rowPtr + rowSize) (counter + 1) (acc ++ [bytes])

/-- The Constant case. -/
def caseConstant (c : T2Ctx) (numRows : Nat) (tableOff : Int) (out : Output) :
    Option (Int × Output) := do
  let idxSize := constantParentSize c.rows
  let rowSize := 1 + 1 + idxSize + c.isz.blob
  let r ← constantLoop c idxSize rowSize numRows tableOff 0 []
  some (tableOff + ((rowSize * numRows : Nat) : Int),
    { out with constants := r.2, number_of_constants := some r.1 })

/-- The 13 bytes of the literal "GuidAttribute". -/
def guidAttributeName : List Nat :=
  [0x47, 0x75, 0x69, 0x64, 0x41, 0x74, 0x74, 0x72, 0x69, 0x62, 0x75, 0x74, 0x65]

/-- The name test of the CustomAttribute chase as the C code performs it:
the row is skipped only when the name resolved AND does not start with
"GuidAttribute" (an unresolvable name falls through). -/
def guidNameMismatch (name : Option (List Nat)) : Bool :=
  match name with
  | some nm => ! strncmpEq nm guidAttributeName
  | none => false

/-- Outcome of processing one CustomAttribute row: `stop` is a `break` out
of the row loop, `skip` a `continue`, `setTl v` sets `typelib` to `v`. -/
inductive CAStep where
  | stop
  | skip
  | setTl (v : List Nat)
deriving DecidableEq, Repr

/-- The Value-blob part of one CustomAttribute row (`bi` is the decoded
blob index): a zero or out-of-range index, a blob-decode failure, a length
below 3, an out-of-range body, or a prolog other than 0x0001 skips the row;
otherwise `typelib` is set: to the empty string if the first content byte is
0xFF or 0x00, else to the `str_len` content bytes up to an embedded NUL. -/
def caValueStep (c : T2Ctx) (bi : Nat) : Option CAStep :=
  let blobOffset := c.blobBase + (bi : Int)
  if bi = 0 ∨ blobOffset ≥ dataSize c.pe then some .skip
  else do
    let br ← dotnet_parse_blob_entry c.pe blobOffset
    if br.size = 0 then some .skip
    else
      let bo := blobOffset + (br.size : Int)
      if br.length < 3 ∨ bo + (br.length : Int) ≥ dataSize c.pe then
        some .skip
      else do
        let prolog ← readLE c.pe bo 2
        if prolog ≠ 0x0001 then some .skip
        else do
          let strLen ← readLE c.pe (bo + 2) 1
          let so := bo + 3
          if so + (strLen : Int) > dataSize c.pe then some .skip
          else do
            let b0 ← readLE c.pe so 1
            if b0 = 0xFF ∨ b0 = 0x00 then some (.setTl [])
            else do
              let bytes ← readBytes c.pe so strLen
              some (.setTl (bytes.takeWhile (· ≠ 0)))

/-- Decrement a 1-based coded-index value (0 stays 0). -/
def decIndex (i : Nat) : Nat := if i > 0 then i - 1 else i

/-- The TypeRef part of one CustomAttribute row: bounds-check the resolved
TypeRef row, skip its leading ResolutionScope column, read the Name
string-heap index, apply the name test, then read the row's Value blob
index at `valOff` and decode the blob. -/
def caNameStep (c : T2Ctx) (trRow : Int) (trSize : Nat) (valOff : Int) :
    Option CAStep :=
  if ¬ fits c.pe trRow trSize then some .stop
  else do
    let nameIdx ← readLE c.pe (trRow + (resolutionScopeSize c.rows : Int)) c.isz.string
    if guidNameMismatch (pe_get_dotnet_string c.pe c.strOff nameIdx) then some .skip
    else do
      let bi ← readLE c.pe valOff c.isz.blob
      caValueStep c bi

/-- The MemberRef part of one CustomAttribute row: bounds-check the resolved
MemberRef row, require its Class coded index to select TypeRef (tag 0x01 of
0x07), and resolve the decremented index into the TypeRef table. -/
def caClassStep (c : T2Ctx) (trPtr : Int) (trSize : Nat) (mrRow : Int)
    (mrSize : Nat) (valOff : Int) : Option CAStep :=
  if ¬ fits c.pe mrRow mrSize then some .stop
  else do
    let cls ← readLE c.pe mrRow c.isz.memberref
    if cls &&& 0x07 ≠ 0x01 then some .skip
    else
      caNameStep c (trPtr + ((trSize * decIndex (cls >>> 3) : Nat) : Int)) trSize valOff

/-- One CustomAttribute row of the chase: Parent must select Assembly
(tag 0x0E of 0x1F), Type must select MemberRef (tag 0x03 of 0x07), the
MemberRef row's Class must select TypeRef (tag 0x01 of 0x07), the TypeRef
name is then checked, and finally the Value blob is decoded. -/
def caRowStep (c : T2Ctx) (pSize tSize rowSize : Nat) (trPtr : Int)
    (trSize : Nat) (mrPtr : Int) (mrSize : Nat) (rowPtr : Int) :
    Option CAStep :=
  if ¬ fits c.pe rowPtr rowSize then some .stop
  else do
    let parent ← readLE c.pe rowPtr pSize
    if parent &&& 0x1F ≠ 0x0E then some .skip
    else do
      let tv ← readLE c.pe (rowPtr + (pSize : Int)) tSize
      if tv &&& 0x07 ≠ 0x03 then some .skip
      else
        caClassStep c trPtr trSize (mrPtr + ((mrSize * decIndex (tv >>> 3) : Nat) : Int))
          mrSize (rowPtr + ((pSize + tSize : Nat) : Int))

/-- The CustomAttribute row loop: `stop` abandons the remaining rows, `skip`
moves to the next row, `setTl` overwrites `typelib` and moves on. -/
def caLoop (c : T2Ctx) (pSize tSize rowSize : Nat) (trPtr : Int)
    (trSize : Nat) (mrPtr : Int) (mrSize : Nat) :
    Nat → Int → Output → Option Output
  | 0, _, out => some out
  | n + 1, rowPtr, out =>
    (caRowStep c pSize tSize rowSize trPtr trSize mrPtr mrSize rowPtr).bind fun st =>
      match st with
      | .stop => some out
      | .skip =>
        caLoop c pSize tSize rowSize trPtr trSize mrPtr mrSize n (rowPtr + (rowSize : Int)) out
      | .setTl v =>
        caLoop c pSize tSize rowSize trPtr trSize mrPtr mrSize n (rowPtr + (rowSize : Int))
          { out with typelib := some v }

/-- The CustomAttribute case: the chase runs only when both the TypeRef and
MemberRef table bases were captured earlier in the walk. -/
def caseCustomattribute (c : T2Ctx) (numRows : Nat)
    (trInfo mrInfo : Option (Int × Nat)) (tableOff : Int) (out : Output) :
    Option (Int × Output) :=
  let pSize := caParentSize c.rows
  let tSize := caTypeSize c.rows
  let rowSize := pSize + tSize + c.isz.blob
  match trInfo, mrInfo with
  | some tr, some mr => do
    let out' ← caLoop c pSize tSize rowSize tr.1 tr.2 mr.1 mr.2 numRows tableOff out
    some (tableOff + ((rowSize * numRows : Nat) : Int), out')
  | _, _ =>
    some (tableOff + ((rowSize * numRows : Nat) : Int), out)

/-- The ModuleRef row loop (4-byte `MODULEREF_TABLE` struct check, rows
advance by the string-index width; absent names are skipped). -/
def modulerefLoop (c : T2Ctx) :
    Nat → Int → Nat → List (List Nat) → Option (Nat × List (List Nat))
  | 0, _, counter, acc => some (counter, acc)
  | n + 1, rowPtr, counter, acc =>
    if ¬ fits c.pe rowPtr 4 then some (counter, acc)
    else do
      let idx ← readLE c.pe rowPtr c.isz.string
      match pe_get_dotnet_string c.pe c.strOff idx with
      | some nm =>
        modulerefLoop c n (rowPtr + (c.isz.string : Int)) (counter + 1) (acc ++ [nm])
      | none => modulerefLoop c n (rowPtr + (c.isz.string : Int)) counter acc

/-- The ModuleRef case. -/
def caseModuleref (c : T2Ctx) (numRows : Nat) (tableOff : Int) (out : Output) :
    Option (Int × Output) := do
  let r ← modulerefLoop c numRows tableOff 0 []
  some (tableOff + ((c.isz.string * numRows : Nat) : Int),
    { out with modulerefs := r.2, number_of_modulerefs := some r.1 })

/-- The FieldRVA row loop (8-byte `FIELDRVA_TABLE` struct check; rows whose
RVA translates to a non-negative file offset are recorded). -/
def fieldrvaLoop (c : T2Ctx) (rowSize : Nat) :
    Nat → Int → Nat → List Int → Option (Nat × List Int)
  | 0, _, counter, acc => some (counter, acc)
  | n + 1, rowPtr, counter, acc =>
    if ¬ fits c.pe rowPtr 8 then some (counter, acc)
    else do
      let rva ← readLE c.pe rowPtr 4
      let fo := c.pe.rvaToOff rva
      if 0 ≤ fo then fieldrvaLoop c rowSize n (rowPtr + (rowSize : Int)) (counter + 1) (acc ++ [fo])
      else fieldrvaLoop c rowSize n (rowPtr + (rowSize : Int)) counter acc

/-- The FieldRVA case. -/
def caseFieldrva (c : T2Ctx) (numRows : Nat) (tableOff : Int) (out : Output) :
    Option (Int × Output) := do
  let rowSize := 4 + c.isz.field
  let r ← fieldrvaLoop c rowSize numRows tableOff 0 []
  some (tableOff + ((rowSize * numRows : Nat) : Int),
    { out with field_offsets := r.2, number_of_field_offsets := some r.1 })

/-- The Assembly case: only the first row is read (an early `break` on the
bounds check skips the cursor advance); the culture is set only when
non-empty. -/
def caseAssembly (c : T2Ctx) (numRows : Nat) (tableOff : Int) (out : Output) :
    Option (Int × Output) :=
  let rowSize := 4 + 2 + 2 + 2 + 2 + 4 + c.isz.blob + c.isz.string * 2
  if ¬ fits c.pe tableOff rowSize then some (tableOff, out)
  else do
    let mj ← readLE c.pe (tableOff + 4) 2
    let mn ← readLE c.pe (tableOff + 6) 2
    let bd ← readLE c.pe (tableOff + 8) 2
    let rv ← readLE c.pe (tableOff + 10) 2
    let nameIdx ← readLE c.pe (tableOff + ((16 + c.isz.blob : Nat) : Int)) c.isz.string
    let cultIdx ← readLE c.pe (tableOff + ((16 + c.isz.blob + c.isz.string : Nat) : Int))
      c.isz.string
    let out1 := { out with assembly_version := some (mj, mn, bd, rv) }
    let out2 := match pe_get_dotnet_string c.pe c.strOff nameIdx with
      | some nm => { out1 with assembly_name := some nm }
      | none => out1
    let out3 := match pe_get_dotnet_string c.pe c.strOff cultIdx with
      | some cu => if cu.length > 0 then { out2 with assembly_culture := some cu } else out2
      | none => out2
    some (tableOff + ((rowSize * numRows : Nat) : Int), out3)

/-- The AssemblyRef row loop: per row the four version numbers are always
recorded; the public-key-or-token blob check may skip the blob and name. -/
def asmrefLoop (c : T2Ctx) (rowSize : Nat) :
    Nat → Int → Nat → List AsmRefOut → Option (Nat × List AsmRefOut)
  | 0, _, i, acc => some (i, acc)
  | n + 1, rowPtr, i, acc =>
    if ¬ fits c.pe rowPtr rowSize then some (i, acc)
    else do
      let mj ← readLE c.pe rowPtr 2
      let mn ← readLE c.pe (rowPtr + 2) 2
      let bd ← readLE c.pe (rowPtr + 4) 2
      let rv ← readLE c.pe (rowPtr + 6) 2
      let pkIdx ← readLE c.pe (rowPtr + 12) c.isz.blob
      let blobOffset := c.blobBase + (pkIdx : Int)
      let br ← dotnet_parse_blob_entry c.pe blobOffset
      let bo := blobOffset + (br.size : Int)
      if br.size = 0 ∨ ¬ fits c.pe bo br.length then
        asmrefLoop c rowSize n (rowPtr + (rowSize : Int)) (i + 1)
          (acc ++ [{ major := mj, minor := mn, build := bd, revision := rv }])
      else do
        let pkBytes ← readBytes c.pe bo br.length
        let pk := if br.length > 0 then some pkBytes else none
        let nameIdx ← readLE c.pe (rowPtr + ((12 + c.isz.blob : Nat) : Int)) c.isz.string
        let nm := pe_get_dotnet_string c.pe c.strOff nameIdx
        asmrefLoop c rowSize n (rowPtr + (rowSize : Int)) (i + 1)
          (acc ++ [{ major := mj, minor := mn, build := bd, revision := rv,
                     publicKeyOrToken := pk, name := nm }])

/-- The AssemblyRef case. -/
def caseAssemblyref (c : T2Ctx) (numRows : Nat) (tableOff : Int) (out : Output) :
    Option (Int × Output) := do
  let rowSize := 2 + 2 + 2 + 2 + 4 + c.isz.blob * 2 + c.isz.string * 2
  let r ← asmrefLoop c rowSize numRows tableOff 0 []
  some (tableOff + ((rowSize * numRows : Nat) : Int),
    { out with assembly_refs := r.2, number_of_assembly_refs := some r.1 })

/-- The ManifestResource row loop: only rows whose Implementation coded
index is 0 (embedded in this file) and whose resource dword and body fit are
recorded; the stored offset skips the 4-byte length prefix. -/
def manifestLoop (c : T2Ctx) (idxSize rowSize : Nat) :
    Nat → Int → Nat → List ResourceOut → Option (Nat × List ResourceOut)
  | 0, _, counter, acc => some (counter, acc)
  | n + 1, rowPtr, counter, acc =>
    if ¬ fits c.pe rowPtr rowSize then some (counter, acc)
    else do
      let resOff ← readLE c.pe rowPtr 4
      let impl ← readLE c.pe (rowPtr + ((8 + c.isz.string : Nat) : Int)) idxSize
      if impl ≠ 0 then manifestLoop c idxSize rowSize n (rowPtr + (rowSize : Int)) counter acc
      else
        let ro := c.resourceBase + (resOff : Int)
        if ¬ fits c.pe ro 4 then
          manifestLoop c idxSize rowSize n (rowPtr + (rowSize : Int)) counter acc
        else do
          let resSize ← readLE c.pe ro 4
          if ¬ fits c.pe ro resSize then
            manifestLoop c idxSize rowSize n (rowPtr + (rowSize : Int)) counter acc
          else do
            let nameIdx ← readLE c.pe (rowPtr + 8) c.isz.string
            let nm := pe_get_dotnet_string c.pe c.strOff nameIdx
            manifestLoop c idxSize rowSize n (rowPtr + (rowSize : Int)) (counter + 1)
              (acc ++ [{ offset := ro + 4, length := resSize, name := nm }])

/-- The ManifestResource case. -/
def caseManifestresource (c : T2Ctx) (numRows : Nat) (tableOff : Int)
    (out : Output) : Option (Int × Output) := do
  let idxSize := manifestImplSize c.rows
  let rowSize := 4 + 4 + c.isz.string + idxSize
  let r ← manifestLoop c idxSize rowSize numRows tableOff 0 []
  some (tableOff + ((rowSize * numRows : Nat) : Int),
    { out with resources := r.2, number_of_resources := some r.1 })

/-- Advance the cursor by `w * numRows` (the skip-only table cases). -/
def skipRows (s : T2St) (w numRows : Nat) : Option T2Res :=
  some (.cont { s with tableOff := s.tableOff + ((w * numRows : Nat) : Int) })

/-- Re-pack an extraction case's `(cursor, output)` result into the pass
state (the captured table pointers are untouched). -/
def contWith (s : T2St) (r : Int × Output) : T2Res :=
  .cont { s with tableOff := r.1, out := r.2 }

/-- One case of the 44-way switch of `dotnet_parse_tilde_2` (bit numbers are
the ECMA-335 table numbers); any other bit is the `default:` case, which
returns from the whole pass. -/
def tilde2Step (c : T2Ctx) (bit numRows : Nat) (s : T2St) : Option T2Res :=
  match bit with
  | 0 => (caseModule c numRows s.tableOff s.out).map (contWith s)
  | 1 =>
    let rowSize := typerefRowSize c.rows c.isz
    some (.cont { s with
      typeref := some (s.tableOff, rowSize)
      tableOff := s.tableOff + ((rowSize * numRows : Nat) : Int) })
  | 2 => skipRows s (4 + c.isz.string * 2 + typeDefOrRefSize c.rows +
      c.isz.field + c.isz.methoddef) numRows
  | 3 => skipRows s c.isz.field numRows
  | 4 => skipRows s (2 + c.isz.string + c.isz.blob) numRows
  | 5 => skipRows s c.isz.methoddef numRows
  | 6 => skipRows s (4 + 2 + 2 + c.isz.string + c.isz.blob + c.isz.param) numRows
  | 8 => skipRows s (2 + 2 + c.isz.string) numRows
  | 9 => skipRows s (c.isz.typedef_ + typeDefOrRefSize c.rows) numRows
  | 10 =>
    let rowSize := memberrefRowSize c.rows c.isz
    some (.cont { s with
      memberref := some (s.tableOff, rowSize)
      tableOff := s.tableOff + ((rowSize * numRows : Nat) : Int) })
  | 11 => (caseConstant c numRows s.tableOff s.out).map (contWith s)
  | 12 => (caseCustomattribute c numRows s.typeref s.memberref s.tableOff s.out).map
      (contWith s)
  | 13 => skipRows s
      ((if max c.rows.field c.rows.param > 0xFFFF >>> 1 then 4 else 2) + c.isz.blob) numRows
  | 14 => skipRows s
      (2 + (if max c.rows.typedef_ (max c.rows.methoddef c.rows.assembly) > 0xFFFF >>> 2
            then 4 else 2) + c.isz.blob) numRows
  | 15 => skipRows s (2 + 4 + c.isz.typedef_) numRows
  | 16 => skipRows s (4 + c.isz.field) numRows
  | 17 => skipRows s c.isz.blob numRows
  | 18 => skipRows s (c.isz.typedef_ + c.isz.event) numRows
  | 19 => skipRows s c.isz.event numRows
  | 20 => skipRows s (2 + c.isz.string + typeDefOrRefSize c.rows) numRows
  | 21 => skipRows s (c.isz.typedef_ + c.isz.property) numRows
  | 22 => skipRows s c.isz.property numRows
  | 23 => skipRows s (2 + c.isz.string + c.isz.blob) numRows
  | 24 => skipRows s
      (2 + c.isz.methoddef +
        (if max c.rows.event c.rows.property > 0xFFFF >>> 1 then 4 else 2)) numRows
  | 25 => skipRows s
      (c.isz.typedef_ +
        (if max c.rows.methoddef c.rows.memberref > 0xFFFF >>> 1 then 4 else 2) * 2) numRows
  | 26 => (caseModuleref c numRows s.tableOff s.out).map (contWith s)
  | 27 => skipRows s c.isz.blob numRows
  | 28 => skipRows s
      (2 + (if max c.rows.field c.rows.methoddef > 0xFFFF >>> 1 then 4 else 2) +
        c.isz.string + c.isz.moduleref) numRows
  | 29 => (caseFieldrva c numRows s.tableOff s.out).map (contWith s)
  | 30 => skipRows s (4 + 4) numRows
  | 31 => skipRows s 4 numRows
  | 32 => (caseAssembly c numRows s.tableOff s.out).map (contWith s)
  | 33 => skipRows s 4 numRows
  | 34 => skipRows s (4 + 4 + 4) numRows
  | 35 => (caseAssemblyref c numRows s.tableOff s.out).map (contWith s)
  | 36 => skipRows s (4 + c.isz.assemblyrefprocessor) numRows
  | 37 => skipRows s (4 + 4 + 4 + c.isz.assemblyref) numRows
  | 38 => skipRows s (4 + c.isz.string + c.isz.blob) numRows
  | 39 => skipRows s
      (4 + 4 + c.isz.string * 2 +
        (if max c.rows.file (max c.rows.assemblyref c.rows.exportedtype) > 0xFFFF >>> 2
         then 4 else 2)) numRows
  | 40 => (caseManifestresource c numRows s.tableOff s.out).map (contWith s)
  | 41 => skipRows s (c.isz.typedef_ * 2) numRows
  | 42 => skipRows s
      (2 + 2 + (if max c.rows.typedef_ c.rows.methoddef > 0xFFFF >>> 1 then 4 else 2) +
        c.isz.string) numRows
  | 43 => skipRows s
      ((if max c.rows.methoddef c.rows.memberref > 0xFFFF >>> 1 then 4 else 2) +
        c.isz.blob) numRows
  | 44 => skipRows s (c.isz.genericparam + typeDefOrRefSize c.rows) numRows
  | _ => some .halt

/-- The second pass of the table-stream decoder: for every set bit of the
presence mask, check and read the row count, reject counts above 10000
(aborting the whole pass and keeping what was already extracted), dispatch
on the table kind (the `default:` case also aborts the pass), and count the
processed set bit. -/
def tilde2Go (c : T2Ctx) : List Nat → T2St → Option T2St
  | [], s => some s
  | bit :: rest, s =>
    if (c.valid >>> bit) &&& 1 ≠ 1 then tilde2Go c rest s
    else if ¬ fits c.pe (c.rowOffB + ((4 * s.matchedBits : Nat) : Int)) 4 then some s
    else do
      let numRows ← readLE c.pe (c.rowOffB + ((4 * s.matchedBits : Nat) : Int)) 4
      if numRows > 10000 then some s
      else do
        let r ← tilde2Step c bit numRows s
        match r with
        | .halt => some s
        | .cont s' => tilde2Go c rest { s' with matchedBits := s'.matchedBits + 1 }

/-- The two-pass `#~` decoder `dotnet_parse_tilde` (header check, heap-size
flags, the row-count pass, then the table pass). -/
def dotnet_parse_tilde (pe : PEImage) (metadataRoot cliOff : Int)
    (tref sref bref : StreamRef) (out : Output) : Option Output :=
  let tildeOff := metadataRoot + (tref.off : Int)
  if ¬ fits pe tildeOff 24 then some out
  else do
    let heapSizes ← readLE pe (tildeOff + 6) 1
    let valid ← readLE pe (tildeOff + 8) 8
    let isz0 : IndexSizes :=
      { string := if heapSizes &&& 0x01 ≠ 0 then 4 else 2
        guid := if heapSizes &&& 0x02 ≠ 0 then 4 else 2
        blob := if heapSizes &&& 0x04 ≠ 0 then 4 else 2 }
    let rowOffB := tildeOff + 24
    let ri ← pass1Go pe valid rowOffB (List.range 64) 0 {} isz0
    let resVA ← readLE pe (cliOff + 24) 4
    let c : T2Ctx :=
      { pe := pe, valid := valid, rowOffB := rowOffB
        resourceBase := pe.rvaToOff resVA, rows := ri.1, isz := ri.2
        strOff := metadataRoot + (sref.off : Int)
        blobBase := metadataRoot + (bref.off : Int) }
    let s ← tilde2Go c (List.range 64)
      { tableOff := rowOffB + ((4 * popCount64 valid : Nat) : Int)
        matchedBits := 0, out := out }
    some s.out

/-- The image-flavour tail of the probe: on a 64-bit image the declared
`NumberOfRvaAndSizes` must not be below the COM-descriptor index (14); on a
32-bit non-DLL image the entry point must be reachable and start with the
bytes `0xFF 0x25`; a 32-bit DLL passes unconditionally. -/
def probeFlavor (pe : PEImage) : Option Bool :=
  if pe.is64 then
    if pe.numberOfRvaAndSizes < 14 then some false else some true
  else if ¬ pe.isDll then
    let eo := pe.rvaToOff pe.entryPointRVA
    if eo < 0 ∨ ¬ fits pe eo 2 then some false
    else do
      let e0 ← readLE pe eo 1
      let e1 ← readLE pe (eo + 1) 1
      if e0 = 0xFF ∧ e1 = 0x25 then some true else some false
  else some true

/-- The metadata-root part of the probe: reachable 16-byte `NET_METADATA`
header, `BSJB` magic, and a version length in `[1,255]` that is a multiple
of 4 and fits the buffer, followed by the flavour check. -/
def probeMetadata (pe : PEImage) (metadataRoot : Int) : Option Bool :=
  if ¬ fits pe metadataRoot 16 then some false
  else do
    let magic ← readLE pe metadataRoot 4
    if magic ≠ 0x424A5342 then some false
    else do
      let mdLen ← readLE pe (metadataRoot + 12) 4
      if mdLen = 0 ∨ mdLen > 255 ∨ mdLen % 4 ≠ 0 ∨
          ¬ fits pe (metadataRoot + 16) mdLen then some false
      else probeFlavor pe

/-- The probe `dotnet_is_dotnet`: COM-descriptor directory present, the
72-byte CLI header reachable with its declared size equal to 72, then the
metadata-root and image-flavour checks. -/
def dotnet_is_dotnet (pe : PEImage) : Option Bool :=
  match pe.comDir with
  | none => some false
  | some va =>
    let off := pe.rvaToOff va
    if off < 0 ∨ ¬ fits pe off 72 then some false
    else do
      let cliSize ← readLE pe off 4
      if cliSize ≠ 72 then some false
      else do
        let mdVA ← readLE pe (off + 8) 4
        probeMetadata pe (pe.rvaToOff mdVA)

/-- The heap/table stages of `dotnet_parse_com` after the stream directory
was built: GUID heap if a `#GUID` stream was found, the `#~` passes if the
tilde, `#Strings` and `#Blob` streams were all found, then the `#US` heap. -/
def dotnet_parse_stages (pe : PEImage) (metadataRoot cliOff : Int)
    (st : StreamsSt) (out : Output) : Option Output :=
  (match st.guid with
    | some g => dotnet_parse_guid pe metadataRoot g.off g.size out
    | none => some out).bind fun out3 =>
  (match st.tilde, st.string, st.blob with
    | some t, some sr, some b => dotnet_parse_tilde pe metadataRoot cliOff t sr b out3
    | _, _, _ => some out3).bind fun out4 =>
  match st.us with
  | some u => dotnet_parse_us pe metadataRoot u.off u.size out4
  | none => some out4

/-- The metadata part of `dotnet_parse_com` once the metadata root is known
to be reachable: version-length checks, version string, stream count (only
the low byte of the two-byte field is read, the cursor still advances by
2), stream directory, then the heap/table stages. -/
def dotnet_parse_com_md (pe : PEImage) (metadataRoot cliOff : Int)
    (out0 : Output) : Option Output := do
  let mdLen ← readLE pe (metadataRoot + 12) 4
  if mdLen = 0 ∨ mdLen > 255 ∨ mdLen % 4 ≠ 0 ∨
      ¬ fits pe (metadataRoot + 16) mdLen then some out0
  else do
    let ver ← readBytes pe (metadataRoot + 16) mdLen
    let out1 := match ver.findIdx? (· = 0) with
      | some k => { out0 with version := some (ver.take k) }
      | none => out0
    let offset2 := metadataRoot + 16 + (mdLen : Int) + 2
    if ¬ fits pe offset2 2 then some out1
    else do
      let ns ← readLE pe offset2 1
      let so ← dotnet_parse_stream_headers pe (offset2 + 2) metadataRoot ns out1
      dotnet_parse_stages pe metadataRoot cliOff so.1 so.2

/-- The top-level parse `dotnet_parse_com`: on probe failure only
`is_dotnet = 0` is set; on success `is_dotnet = 1` and the version string,
stream directory, GUID heap, table stream and user-string heap are parsed
in order, each stage independently best-effort. -/
def dotnet_parse_com (pe : PEImage) : Option Output := do
  let probe ← dotnet_is_dotnet pe
  if ¬ probe then some { emptyOutput with is_dotnet := some 0 }
  else
    let out0 : Output := { emptyOutput with is_dotnet := some 1 }
    match pe.comDir with
    | none => some out0
    | some va =>
      let cliOff := pe.rvaToOff va
      if cliOff < 0 ∨ ¬ fits pe cliOff 72 then some out0
      else do
        let mdVA ← readLE pe (cliOff + 8) 4
        let metadataRoot := pe.rvaToOff mdVA
        if ¬ fits pe metadataRoot 16 then some out0
        else dotnet_parse_com_md pe metadataRoot cliOff out0

/-! ### Safety lemmas: every read performed by the parser is in bounds. -/

theorem fits_readLE {pe : PEImage} {off : Int} {len : Nat}
    (hf : fits pe off len = true) : (readLE pe off len).isSome = true := by
  rcases fits_iff.mp hf with ⟨-, h0, h1⟩
  exact readLE_isSome h0 h1

theorem fits_readBytes {pe : PEImage} {off : Int} {len : Nat}
    (hf : fits pe off len = true) : (readBytes pe off len).isSome = true := by
  rcases fits_iff.mp hf with ⟨-, h0, h1⟩
  exact readBytes_isSome h0 h1

theorem usLoop_isSome (pe : PEImage) (endOff : Int) :
    ∀ (fuel : Nat) (off : Int) (i : Nat) (acc : List (List Nat)),
      (usLoop pe endOff fuel off i acc).isSome = true := by
  intro fuel
  induction fuel with
  | zero => intro off i acc; rfl
  | succ n ih =>
    intro off i acc
    unfold usLoop
    split
    · obtain ⟨br, hbr⟩ :=
        Option.isSome_iff_exists.mp (dotnet_parse_blob_entry_isSome pe off)
      rw [hbr]
      simp only [Option.bind_eq_bind, Option.some_bind]
      split
      · rfl
      · split
        next h =>
          obtain ⟨bs, hbs⟩ := Option.isSome_iff_exists.mp (fits_readBytes h.2)
          rw [hbs]
          simp only [Option.bind_eq_bind, Option.some_bind]
          exact ih _ _ _
        · exact ih _ _ _
    · rfl

theorem dotnet_parse_us_isSome (pe : PEImage) (metadataRoot : Int)
    (usOff usSize : Nat) (out : Output) :
    (dotnet_parse_us pe metadataRoot usOff usSize out).isSome = true := by
  unfold dotnet_parse_us
  dsimp only
  split
  · rfl
  next h =>
    rw [not_or] at h
    have hfit : fits pe (metadataRoot + (usOff : Int)) usSize = true := not_not.mp h.2
    have hsz : usSize ≠ 0 := h.1
    obtain ⟨b, hb⟩ := Option.isSome_iff_exists.mp
      (readLE_isSome_of_fits hfit (d := 0) (k := 1) (by omega))
    norm_num at hb
    rw [hb]
    simp only [Option.bind_eq_bind, Option.some_bind]
    split
    · rfl
    · obtain ⟨r, hr⟩ := Option.isSome_iff_exists.mp (usLoop_isSome pe _ _ _ _ _)
      rw [hr]; rfl

theorem guidLoop_isSome (pe : PEImage) :
    ∀ (fuel gsz : Nat) (off : Int) (i : Nat) (acc : List (List Nat)),
      (guidLoop pe fuel gsz off i acc).isSome = true := by
  intro fuel
  induction fuel with
  | zero => intro gsz off i acc; rfl
  | succ n ih =>
    intro gsz off i acc
    unfold guidLoop
    split
    next h =>
      obtain ⟨g, hg⟩ := Option.isSome_iff_exists.mp (fits_readBytes h.2)
      rw [hg]
      simp only [Option.bind_eq_bind, Option.some_bind]
      exact ih _ _ _ _
    · rfl

theorem dotnet_parse_guid_isSome (pe : PEImage) (metadataRoot : Int)
    (guidOff guidSize : Nat) (out : Output) :
    (dotnet_parse_guid pe metadataRoot guidOff guidSize out).isSome = true := by
  unfold dotnet_parse_guid
  obtain ⟨r, hr⟩ := Option.isSome_iff_exists.mp (guidLoop_isSome pe _ _ _ _ _)
  rw [hr]; rfl

theorem streamLoop_isSome (pe : PEImage) :
    ∀ (n : Nat) (hdrOff : Int) (st : StreamsSt),
      (streamLoop pe n hdrOff st).isSome = true := by
  intro n
  induction n with
  | zero => intro hdrOff st; rfl
  | succ n ih =>
    intro hdrOff st
    unfold streamLoop
    split
    · rfl
    split
    · rfl
    next h8 h32 =>
      rw [Bool.not_eq_true] at h8 h32
      rw [Bool.not_eq_false] at h8 h32
      obtain ⟨w, hw⟩ := Option.isSome_iff_exists.mp (fits_readBytes h32)
      rw [hw]
      simp only [Option.bind_eq_bind, Option.some_bind]
      split
      · rfl
      · obtain ⟨ov, hov⟩ := Option.isSome_iff_exists.mp
          (readLE_isSome_of_fits h8 (d := 0) (k := 4) (by omega))
        obtain ⟨sv, hsv⟩ := Option.isSome_iff_exists.mp
          (readLE_isSome_of_fits h8 (d := 4) (k := 4) (by omega))
        norm_num at hov hsv
        rw [hov, hsv]
        simp only [Option.bind_eq_bind, Option.some_bind]
        exact ih _ _

theorem dotnet_parse_stream_headers_isSome (pe : PEImage)
    (offset metadataRoot : Int) (numStreams : Nat) (out : Output) :
    (dotnet_parse_stream_headers pe offset metadataRoot numStreams out).isSome = true := by
  unfold dotnet_parse_stream_headers
  obtain ⟨st, hst⟩ := Option.isSome_iff_exists.mp (streamLoop_isSome pe _ _ _)
  rw [hst]; rfl

theorem pass1Go_isSome (pe : PEImage) (valid : Nat) (rowOffB : Int) :
    ∀ (bits : List Nat) (mb : Nat) (rows : RowCounts) (isz : IndexSizes),
      (pass1Go pe valid rowOffB bits mb rows isz).isSome = true := by
  intro bits
  induction bits with
  | nil => intro mb rows isz; rfl
  | cons bit rest ih =>
    intro mb rows isz
    unfold pass1Go
    split
    · exact ih _ _ _
    split
    · split
      next hf =>
        obtain ⟨v, hv⟩ := Option.isSome_iff_exists.mp
          (readLE_isSome_of_fits hf (d := 4 * mb) (k := 4) (by omega))
        rw [hv]
        simp only [Option.bind_eq_bind, Option.some_bind]
        exact ih _ _ _
      · exact ih _ _ _
    · exact ih _ _ _

/-- The index widths actually dereferenced by the second pass are 2 or 4
bytes (they start at 2 and are only ever bumped to 4). -/
def IsizWF (isz : IndexSizes) : Prop :=
  (isz.string = 2 ∨ isz.string = 4) ∧ (isz.blob = 2 ∨ isz.blob = 4) ∧
    (isz.memberref = 2 ∨ isz.memberref = 4)

theorem pass1Set_string (bit v : Nat) (rows : RowCounts) (isz : IndexSizes) :
    (pass1Set bit v rows isz).2.string = isz.string := by
  unfold pass1Set
  split <;> (try split) <;> rfl

theorem pass1Set_blob (bit v : Nat) (rows : RowCounts) (isz : IndexSizes) :
    (pass1Set bit v rows isz).2.blob = isz.blob := by
  unfold pass1Set
  split <;> (try split) <;> rfl

theorem pass1Set_memberref (bit v : Nat) (rows : RowCounts) (isz : IndexSizes) :
    (pass1Set bit v rows isz).2.memberref = isz.memberref ∨
      (pass1Set bit v rows isz).2.memberref = 4 := by
  unfold pass1Set
  split <;> (try split) <;> simp

theorem pass1Set_wf {bit v : Nat} {rows : RowCounts} {isz : IndexSizes}
    (h : IsizWF isz) : IsizWF (pass1Set bit v rows isz).2 := by
  obtain ⟨h1, h2, h3⟩ := h
  refine ⟨?_, ?_, ?_⟩
  · rw [pass1Set_string]; exact h1
  · rw [pass1Set_blob]; exact h2
  · rcases pass1Set_memberref bit v rows isz with h | h
    · rw [h]; exact h3
    · exact Or.inr h

theorem pass1Go_wf (pe : PEImage) (valid : Nat) (rowOffB : Int) :
    ∀ (bits : List Nat) (mb : Nat) (rows : RowCounts) (isz : IndexSizes)
      (ri : RowCounts × IndexSizes), IsizWF isz →
      pass1Go pe valid rowOffB bits mb rows isz = some ri → IsizWF ri.2 := by
  intro bits
  induction bits with
  | nil =>
    intro mb rows isz ri h hp
    cases hp
    exact h
  | cons bit rest ih =>
    intro mb rows isz ri h hp
    unfold pass1Go at hp
    split at hp
    · exact ih _ _ _ _ h hp
    · split at hp
      · split at hp
        · obtain ⟨v, hv, hrec⟩ := Option.bind_eq_some.mp hp
          exact ih _ _ _ _ (pass1Set_wf h) hrec
        · exact ih _ _ _ _ h hp
      · exact ih _ _ _ _ h hp

theorem caseModule_isSome (c : T2Ctx) (numRows : Nat) (tableOff : Int)
    (out : Output) (hwf : IsizWF c.isz) :
    (caseModule c numRows tableOff out).isSome = true := by
  unfold caseModule
  split
  · rfl
  next hfit =>
    rw [Bool.not_eq_true, Bool.not_eq_false] at hfit
    have hb : (readLE c.pe (tableOff + 2) c.isz.string).isSome = true := by
      have := readLE_isSome_of_fits hfit (d := 2) (k := c.isz.string)
        (by rcases hwf.1 with h | h <;> omega)
      norm_num at this
      exact this
    obtain ⟨idx, hidx⟩ := Option.isSome_iff_exists.mp hb
    rw [hidx]
    rfl

theorem constantLoop_isSome (c : T2Ctx) (idxSize rowSize : Nat)
    (hrow : rowSize = 1 + 1 + idxSize + c.isz.blob) (hb : 0 ≤ c.blobBase) :
    ∀ (n : Nat) (rowPtr : Int) (counter : Nat) (acc : List (List Nat)),
      (constantLoop c idxSize rowSize n rowPtr counter acc).isSome = true := by
  intro n
  induction n with
  | zero => intro rowPtr counter acc; rfl
  | succ n ih =>
    intro rowPtr counter acc
    unfold constantLoop
    split
    · rfl
    next hfit =>
      rw [Bool.not_eq_true, Bool.not_eq_false] at hfit
      obtain ⟨ty, hty⟩ := Option.isSome_iff_exists.mp
        (readLE_isSome_of_fits hfit (d := 0) (k := 2) (by omega))
      norm_num at hty
      rw [hty]
      simp only [Option.bind_eq_bind, Option.some_bind]
      split
      · exact ih _ _ _
      · have hbi : (readLE c.pe (rowPtr + 2 + (idxSize : Int)) c.isz.blob).isSome = true := by
          have := readLE_isSome_of_fits hfit (d := 2 + idxSize) (k := c.isz.blob)
            (by omega)
          have harg : rowPtr + ((2 + idxSize : Nat) : Int) = rowPtr + 2 + (idxSize : Int) := by
            push_cast
            ring
          rwa [harg] at this
        obtain ⟨bi, hbiv⟩ := Option.isSome_iff_exists.mp hbi
        rw [hbiv]
        simp only [Option.bind_eq_bind, Option.some_bind]
        obtain ⟨br, hbr⟩ := Option.isSome_iff_exists.mp
          (dotnet_parse_blob_entry_isSome c.pe (c.blobBase + (bi : Int)))
        rw [hbr]
        simp only [Option.bind_eq_bind, Option.some_bind]
        split
        · exact ih _ _ _
        · split
          · exact ih _ _ _
          next hlt =>
            rw [not_le] at hlt
            have hbs : (readBytes c.pe (c.blobBase + (bi : Int) + (br.size : Int))
                br.length).isSome = true := by
              refine readBytes_isSome (by positivity) (by omega)
            obtain ⟨bs, hbsv⟩ := Option.isSome_iff_exists.mp hbs
            rw [hbsv]
            simp only [Option.bind_eq_bind, Option.some_bind]
            exact ih _ _ _

theorem caseConstant_isSome (c : T2Ctx) (numRows : Nat) (tableOff : Int)
    (out : Output) (hb : 0 ≤ c.blobBase) :
    (caseConstant c numRows tableOff out).isSome = true := by
  unfold caseConstant
  dsimp only
  obtain ⟨r, hr⟩ := Option.isSome_iff_exists.mp
    (constantLoop_isSome c (constantParentSize c.rows)
      (1 + 1 + constantParentSize c.rows + c.isz.blob) rfl hb numRows tableOff 0 [])
  rw [hr]
  rfl

theorem caValueStep_isSome (c : T2Ctx) (bi : Nat) (hb : 0 ≤ c.blobBase) :
    (caValueStep c bi).isSome = true := by
  unfold caValueStep
  dsimp only
  split
  · rfl
  next hrange =>
    rw [not_or] at hrange
    obtain ⟨br, hbr⟩ := Option.isSome_iff_exists.mp
      (dotnet_parse_blob_entry_isSome c.pe (c.blobBase + (bi : Int)))
    rw [hbr]
    simp only [Option.bind_eq_bind, Option.some_bind]
    split
    · rfl
    · split
      · rfl
      next hlen =>
        rw [not_or] at hlen
        obtain ⟨hl3, hlsz⟩ := hlen
        rw [not_lt] at hl3
        rw [not_le] at hlsz
        have hbo : (0 : Int) ≤ c.blobBase + (bi : Int) + (br.size : Int) := by
          positivity
        have hl3' : (3 : Int) ≤ (br.length : Int) := by exact_mod_cast hl3
        obtain ⟨prolog, hpro⟩ := Option.isSome_iff_exists.mp
          (@readLE_isSome c.pe (c.blobBase + (bi : Int) + (br.size : Int)) 2 hbo (by omega))
        rw [hpro]
        simp only [Option.bind_eq_bind, Option.some_bind]
        split
        · rfl
        · obtain ⟨strLen, hsl⟩ := Option.isSome_iff_exists.mp
            (@readLE_isSome c.pe (c.blobBase + (bi : Int) + (br.size : Int) + 2) 1
              (by omega) (by omega))
          rw [hsl]
          simp only [Option.bind_eq_bind, Option.some_bind]
          split
          · rfl
          next hsfit =>
            rw [not_lt] at hsfit
            obtain ⟨b0, hb0⟩ := Option.isSome_iff_exists.mp
              (@readLE_isSome c.pe (c.blobBase + (bi : Int) + (br.size : Int) + 3) 1
                (by omega) (by omega))
            rw [hb0]
            simp only [Option.bind_eq_bind, Option.some_bind]
            split
            · rfl
            · obtain ⟨bs, hbs⟩ := Option.isSome_iff_exists.mp
                (@readBytes_isSome c.pe (c.blobBase + (bi : Int) + (br.size : Int) + 3)
                  strLen (by omega) (by omega))
              rw [hbs]
              rfl

theorem caNameStep_isSome (c : T2Ctx) (trRow : Int) (trSize : Nat)
    (valOff : Int)
    (htr : resolutionScopeSize c.rows + c.isz.string ≤ trSize)
    (hval : (readLE c.pe valOff c.isz.blob).isSome = true)
    (hb : 0 ≤ c.blobBase) :
    (caNameStep c trRow trSize valOff).isSome = true := by
  unfold caNameStep
  split
  · rfl
  next hfittr =>
    rw [Bool.not_eq_true, Bool.not_eq_false] at hfittr
    obtain ⟨nameIdx, hni⟩ := Option.isSome_iff_exists.mp
      (readLE_isSome_of_fits hfittr (d := resolutionScopeSize c.rows)
        (k := c.isz.string) (by omega))
    rw [hni]
    simp only [Option.bind_eq_bind, Option.some_bind]
    split
    · rfl
    · obtain ⟨bi, hbi⟩ := Option.isSome_iff_exists.mp hval
      rw [hbi]
      simp only [Option.bind_eq_bind, Option.some_bind]
      exact caValueStep_isSome c bi hb

theorem caClassStep_isSome (c : T2Ctx) (trPtr : Int) (trSize : Nat)
    (mrRow : Int) (mrSize : Nat) (valOff : Int)
    (hmr : c.isz.memberref ≤ mrSize)
    (htr : resolutionScopeSize c.rows + c.isz.string ≤ trSize)
    (hval : (readLE c.pe valOff c.isz.blob).isSome = true)
    (hb : 0 ≤ c.blobBase) :
    (caClassStep c trPtr trSize mrRow mrSize valOff).isSome = true := by
  unfold caClassStep
  split
  · rfl
  next hfitmr =>
    rw [Bool.not_eq_true, Bool.not_eq_false] at hfitmr
    obtain ⟨cls, hcls⟩ := Option.isSome_iff_exists.mp
      (readLE_isSome_of_fits hfitmr (d := 0) (k := c.isz.memberref) (by omega))
    norm_num at hcls
    rw [hcls]
    simp only [Option.bind_eq_bind, Option.some_bind]
    split
    · rfl
    · exact caNameStep_isSome c _ trSize valOff htr hval hb

theorem caRowStep_isSome (c : T2Ctx) (pSize tSize rowSize : Nat)
    (trPtr : Int) (trSize : Nat) (mrPtr : Int) (mrSize : Nat) (rowPtr : Int)
    (hrs : rowSize = pSize + tSize + c.isz.blob)
    (hmr : c.isz.memberref ≤ mrSize)
    (htr : resolutionScopeSize c.rows + c.isz.string ≤ trSize)
    (hb : 0 ≤ c.blobBase) :
    (caRowStep c pSize tSize rowSize trPtr trSize mrPtr mrSize rowPtr).isSome = true := by
  unfold caRowStep
  split
  · rfl
  next hfit =>
    rw [Bool.not_eq_true, Bool.not_eq_false] at hfit
    obtain ⟨parent, hparent⟩ := Option.isSome_iff_exists.mp
      (readLE_isSome_of_fits hfit (d := 0) (k := pSize) (by omega))
    norm_num at hparent
    rw [hparent]
    simp only [Option.bind_eq_bind, Option.some_bind]
    split
    · rfl
    · obtain ⟨tv, htv⟩ := Option.isSome_iff_exists.mp
        (readLE_isSome_of_fits hfit (d := pSize) (k := tSize) (by omega))
      rw [htv]
      simp only [Option.bind_eq_bind, Option.some_bind]
      split
      · rfl
      · refine caClassStep_isSome c trPtr trSize _ mrSize _ hmr htr ?_ hb
        exact readLE_isSome_of_fits hfit (d := pSize + tSize) (k := c.isz.blob)
          (by omega)

theorem caLoop_isSome (c : T2Ctx) (pSize tSize rowSize : Nat) (trPtr : Int)
    (trSize : Nat) (mrPtr : Int) (mrSize : Nat)
    (hrs : rowSize = pSize + tSize + c.isz.blob)
    (hmr : c.isz.memberref ≤ mrSize)
    (htr : resolutionScopeSize c.rows + c.isz.string ≤ trSize)
    (hb : 0 ≤ c.blobBase) :
    ∀ (n : Nat) (rowPtr : Int) (out : Output),
      (caLoop c pSize tSize rowSize trPtr trSize mrPtr mrSize n rowPtr out).isSome = true := by
  intro n
  induction n with
  | zero => intro rowPtr out; rfl
  | succ n ih =>
    intro rowPtr out
    unfold caLoop
    obtain ⟨st, hst⟩ := Option.isSome_iff_exists.mp
      (caRowStep_isSome c pSize tSize rowSize trPtr trSize mrPtr mrSize rowPtr
        hrs hmr htr hb)
    rw [hst]
    simp only [Option.bind_eq_bind, Option.some_bind]
    cases st with
    | stop => rfl
    | skip => exact ih _ _
    | setTl v => exact ih _ _

theorem caseCustomattribute_isSome (c : T2Ctx) (numRows : Nat)
    (trInfo mrInfo : Option (Int × Nat)) (tableOff : Int) (out : Output)
    (hwf : IsizWF c.isz) (hb : 0 ≤ c.blobBase)
    (htr : ∀ p sz, trInfo = some (p, sz) → sz = typerefRowSize c.rows c.isz)
    (hmr : ∀ p sz, mrInfo = some (p, sz) → sz = memberrefRowSize c.rows c.isz) :
    (caseCustomattribute c numRows trInfo mrInfo tableOff out).isSome = true := by
  unfold caseCustomattribute
  dsimp only
  split
  next tr mr =>
    have htr' := htr tr.1 tr.2 (by rw [Prod.mk.eta])
    have hmr' := hmr mr.1 mr.2 (by rw [Prod.mk.eta])
    have h1 : resolutionScopeSize c.rows + c.isz.string ≤ tr.2 := by
      rw [htr']
      unfold typerefRowSize
      omega
    have h2 : c.isz.memberref ≤ mr.2 := by
      rw [hmr']
      unfold memberrefRowSize
      rcases hwf.1 with h | h <;> rcases hwf.2.1 with h' | h' <;>
        rcases hwf.2.2 with h'' | h'' <;> omega
    obtain ⟨out', hout⟩ := Option.isSome_iff_exists.mp
      (caLoop_isSome c _ _ _ tr.1 tr.2 mr.1 mr.2 rfl h2 h1 hb numRows tableOff out)
    rw [hout]
    rfl
  · rfl

theorem modulerefLoop_isSome (c : T2Ctx) (hwf : IsizWF c.isz) :
    ∀ (n : Nat) (rowPtr : Int) (counter : Nat) (acc : List (List Nat)),
      (modulerefLoop c n rowPtr counter acc).isSome = true := by
  intro n
  induction n with
  | zero => intro rowPtr counter acc; rfl
  | succ n ih =>
    intro rowPtr counter acc
    unfold modulerefLoop
    split
    · rfl
    next hfit =>
      rw [Bool.not_eq_true, Bool.not_eq_false] at hfit
      obtain ⟨idx, hidx⟩ := Option.isSome_iff_exists.mp
        (readLE_isSome_of_fits hfit (d := 0) (k := c.isz.string)
          (by rcases hwf.1 with h | h <;> omega))
      norm_num at hidx
      rw [hidx]
      simp only [Option.bind_eq_bind, Option.some_bind]
      split <;> exact ih _ _ _

theorem caseModuleref_isSome (c : T2Ctx) (numRows : Nat) (tableOff : Int)
    (out : Output) (hwf : IsizWF c.isz) :
    (caseModuleref c numRows tableOff out).isSome = true := by
  unfold caseModuleref
  obtain ⟨r, hr⟩ := Option.isSome_iff_exists.mp
    (modulerefLoop_isSome c hwf numRows tableOff 0 [])
  rw [hr]
  rfl

theorem fieldrvaLoop_isSome (c : T2Ctx) (rowSize : Nat) :
    ∀ (n : Nat) (rowPtr : Int) (counter : Nat) (acc : List Int),
      (fieldrvaLoop c rowSize n rowPtr counter acc).isSome = true := by
  intro n
  induction n with
  | zero => intro rowPtr counter acc; rfl
  | succ n ih =>
    intro rowPtr counter acc
    unfold fieldrvaLoop
    split
    · rfl
    next hfit =>
      rw [Bool.not_eq_true, Bool.not_eq_false] at hfit
      obtain ⟨rva, hrva⟩ := Option.isSome_iff_exists.mp
        (readLE_isSome_of_fits hfit (d := 0) (k := 4) (by omega))
      norm_num at hrva
      rw [hrva]
      simp only [Option.bind_eq_bind, Option.some_bind]
      split <;> exact ih _ _ _

theorem caseFieldrva_isSome (c : T2Ctx) (numRows : Nat) (tableOff : Int)
    (out : Output) : (caseFieldrva c numRows tableOff out).isSome = true := by
  unfold caseFieldrva
  dsimp only
  obtain ⟨r, hr⟩ := Option.isSome_iff_exists.mp
    (fieldrvaLoop_isSome c (4 + c.isz.field) numRows tableOff 0 [])
  rw [hr]
  rfl

theorem caseAssembly_isSome (c : T2Ctx) (numRows : Nat) (tableOff : Int)
    (out : Output) (hwf : IsizWF c.isz) :
    (caseAssembly c numRows tableOff out).isSome = true := by
  unfold caseAssembly
  dsimp only
  split
  · rfl
  next hfit =>
    rw [Bool.not_eq_true, Bool.not_eq_false] at hfit
    have hstr : c.isz.string ≤ 4 := by rcases hwf.1 with h | h <;> omega
    obtain ⟨mj, hmj⟩ := Option.isSome_iff_exists.mp
      (readLE_isSome_of_fits hfit (d := 4) (k := 2) (by omega))
    obtain ⟨mn, hmn⟩ := Option.isSome_iff_exists.mp
      (readLE_isSome_of_fits hfit (d := 6) (k := 2) (by omega))
    obtain ⟨bd, hbd⟩ := Option.isSome_iff_exists.mp
      (readLE_isSome_of_fits hfit (d := 8) (k := 2) (by omega))
    obtain ⟨rv, hrv⟩ := Option.isSome_iff_exists.mp
      (readLE_isSome_of_fits hfit (d := 10) (k := 2) (by omega))
    obtain ⟨ni, hni⟩ := Option.isSome_iff_exists.mp
      (readLE_isSome_of_fits hfit (d := 16 + c.isz.blob) (k := c.isz.string)
        (by omega))
    obtain ⟨ci, hci⟩ := Option.isSome_iff_exists.mp
      (readLE_isSome_of_fits hfit (d := 16 + c.isz.blob + c.isz.string)
        (k := c.isz.string) (by omega))
    norm_num at hmj hmn hbd hrv
    rw [hmj, hmn, hbd, hrv, hni, hci]
    rfl

theorem asmrefLoop_isSome (c : T2Ctx) (rowSize : Nat)
    (hrow : 12 + c.isz.blob + c.isz.string ≤ rowSize) :
    ∀ (n : Nat) (rowPtr : Int) (i : Nat) (acc : List AsmRefOut),
      (asmrefLoop c rowSize n rowPtr i acc).isSome = true := by
  intro n
  induction n with
  | zero => intro rowPtr i acc; rfl
  | succ n ih =>
    intro rowPtr i acc
    unfold asmrefLoop
    split
    · rfl
    next hfit =>
      rw [Bool.not_eq_true, Bool.not_eq_false] at hfit
      obtain ⟨mj, hmj⟩ := Option.isSome_iff_exists.mp
        (readLE_isSome_of_fits hfit (d := 0) (k := 2) (by omega))
      obtain ⟨mn, hmn⟩ := Option.isSome_iff_exists.mp
        (readLE_isSome_of_fits hfit (d := 2) (k := 2) (by omega))
      obtain ⟨bd, hbd⟩ := Option.isSome_iff_exists.mp
        (readLE_isSome_of_fits hfit (d := 4) (k := 2) (by omega))
      obtain ⟨rv, hrv⟩ := Option.isSome_iff_exists.mp
        (readLE_isSome_of_fits hfit (d := 6) (k := 2) (by omega))
      obtain ⟨pk, hpk⟩ := Option.isSome_iff_exists.mp
        (readLE_isSome_of_fits hfit (d := 12) (k := c.isz.blob) (by omega))
      norm_num at hmj hmn hbd hrv hpk
      rw [hmj, hmn, hbd, hrv, hpk]
      simp only [Option.bind_eq_bind, Option.some_bind]
      obtain ⟨br, hbr⟩ := Option.isSome_iff_exists.mp
        (dotnet_parse_blob_entry_isSome c.pe (c.blobBase + (pk : Int)))
      rw [hbr]
      simp only [Option.bind_eq_bind, Option.some_bind]
      split
      · exact ih _ _ _
      next hcond =>
        rw [not_or] at hcond
        obtain ⟨pkb, hpkb⟩ := Option.isSome_iff_exists.mp
          (fits_readBytes (not_not.mp hcond.2))
        rw [hpkb]
        simp only [Option.bind_eq_bind, Option.some_bind]
        obtain ⟨ni, hni⟩ := Option.isSome_iff_exists.mp
          (readLE_isSome_of_fits hfit (d := 12 + c.isz.blob) (k := c.isz.string)
            (by omega))
        rw [hni]
        simp only [Option.bind_eq_bind, Option.some_bind]
        exact ih _ _ _

theorem caseAssemblyref_isSome (c : T2Ctx) (numRows : Nat) (tableOff : Int)
    (out : Output) : (caseAssemblyref c numRows tableOff out).isSome = true := by
  unfold caseAssemblyref
  dsimp only
  obtain ⟨r, hr⟩ := Option.isSome_iff_exists.mp
    (asmrefLoop_isSome c (2 + 2 + 2 + 2 + 4 + c.isz.blob * 2 + c.isz.string * 2)
      (by omega) numRows tableOff 0 [])
  rw [hr]
  rfl

theorem manifestLoop_isSome (c : T2Ctx) (idxSize rowSize : Nat)
    (hrow : rowSize = 4 + 4 + c.isz.string + idxSize) :
    ∀ (n : Nat) (rowPtr : Int) (counter : Nat) (acc : List ResourceOut),
      (manifestLoop c idxSize rowSize n rowPtr counter acc).isSome = true := by
  intro n
  induction n with
  | zero => intro rowPtr counter acc; rfl
  | succ n ih =>
    intro rowPtr counter acc
    unfold manifestLoop
    split
    · rfl
    next hfit =>
      rw [Bool.not_eq_true, Bool.not_eq_false] at hfit
      obtain ⟨ro, hro⟩ := Option.isSome_iff_exists.mp
        (readLE_isSome_of_fits hfit (d := 0) (k := 4) (by omega))
      obtain ⟨im, him⟩ := Option.isSome_iff_exists.mp
        (readLE_isSome_of_fits hfit (d := 8 + c.isz.string) (k := idxSize) (by omega))
      norm_num at hro
      rw [hro, him]
      simp only [Option.bind_eq_bind, Option.some_bind]
      split
      · exact ih _ _ _
      · split
        · exact ih _ _ _
        next hfit4 =>
          rw [Bool.not_eq_true, Bool.not_eq_false] at hfit4
          obtain ⟨rs, hrs⟩ := Option.isSome_iff_exists.mp
            (readLE_isSome_of_fits hfit4 (d := 0) (k := 4) (by omega))
          norm_num at hrs
          rw [hrs]
          simp only [Option.bind_eq_bind, Option.some_bind]
          split
          · exact ih _ _ _
          · obtain ⟨ni, hni⟩ := Option.isSome_iff_exists.mp
              (readLE_isSome_of_fits hfit (d := 8) (k := c.isz.string) (by omega))
            norm_num at hni
            rw [hni]
            simp only [Option.bind_eq_bind, Option.some_bind]
            exact ih _ _ _

theorem caseManifestresource_isSome (c : T2Ctx) (numRows : Nat)
    (tableOff : Int) (out : Output) :
    (caseManifestresource c numRows tableOff out).isSome = true := by
  unfold caseManifestresource
  dsimp only
  obtain ⟨r, hr⟩ := Option.isSome_iff_exists.mp
    (manifestLoop_isSome c (manifestImplSize c.rows)
      (4 + 4 + c.isz.string + manifestImplSize c.rows) rfl numRows tableOff 0 [])
  rw [hr]
  rfl

/-- Invariant of the second pass: the captured TypeRef/MemberRef bases carry
exactly the row sizes the TypeRef/MemberRef cases computed (the context's
rows and index sizes are fixed for the whole pass). -/
def T2Inv (c : T2Ctx) (s : T2St) : Prop :=
  (∀ p sz, s.typeref = some (p, sz) → sz = typerefRowSize c.rows c.isz) ∧
    (∀ p sz, s.memberref = some (p, sz) → sz = memberrefRowSize c.rows c.isz)

theorem tilde2Step_isSome (c : T2Ctx) (bit numRows : Nat) (s : T2St)
    (hwf : IsizWF c.isz) (hb : 0 ≤ c.blobBase) (hinv : T2Inv c s) :
    (tilde2Step c bit numRows s).isSome = true := by
  unfold tilde2Step
  split
  all_goals
    first
    | rfl
    | (rw [Option.isSome_map']
       first
       | exact caseModule_isSome _ _ _ _ hwf
       | exact caseConstant_isSome _ _ _ _ hb
       | exact caseCustomattribute_isSome _ _ _ _ _ _ hwf hb hinv.1 hinv.2
       | exact caseModuleref_isSome _ _ _ _ hwf
       | exact caseFieldrva_isSome _ _ _ _
       | exact caseAssembly_isSome _ _ _ _ hwf
       | exact caseAssemblyref_isSome _ _ _ _
       | exact caseManifestresource_isSome _ _ _ _)

theorem tilde2Step_inv (c : T2Ctx) (bit numRows : Nat) (s : T2St)
    (hinv : T2Inv c s) :
    ∀ s', tilde2Step c bit numRows s = some (.cont s') → T2Inv c s' := by
  unfold tilde2Step
  split
  all_goals intro s' h
  all_goals
    first
    | (simp only [skipRows, Option.some.injEq, T2Res.cont.injEq] at h
       subst h
       exact ⟨hinv.1, hinv.2⟩)
    | (obtain ⟨r, hr, h2⟩ := Option.map_eq_some'.mp h
       simp only [contWith, T2Res.cont.injEq] at h2
       subst h2
       exact ⟨hinv.1, hinv.2⟩)
    | (simp only [Option.some.injEq, T2Res.cont.injEq] at h
       subst h
       refine ⟨?_, hinv.2⟩
       intro p sz hp
       simp only [Option.some.injEq, Prod.mk.injEq] at hp
       exact hp.2.symm)
    | (simp only [Option.some.injEq, T2Res.cont.injEq] at h
       subst h
       refine ⟨hinv.1, ?_⟩
       intro p sz hp
       simp only [Option.some.injEq, Prod.mk.injEq] at hp
       exact hp.2.symm)
    | simp at h

theorem tilde2Go_isSome (c : T2Ctx) (hwf : IsizWF c.isz) (hb : 0 ≤ c.blobBase) :
    ∀ (bits : List Nat) (s : T2St), T2Inv c s →
      (tilde2Go c bits s).isSome = true := by
  intro bits
  induction bits with
  | nil => intro s _; rfl
  | cons bit rest ih =>
    intro s hinv
    unfold tilde2Go
    split
    · exact ih s hinv
    · split
      · rfl
      next hfit =>
        rw [Bool.not_eq_true, Bool.not_eq_false] at hfit
        obtain ⟨numRows, hnr⟩ := Option.isSome_iff_exists.mp (fits_readLE hfit)
        rw [hnr]
        simp only [Option.bind_eq_bind, Option.some_bind]
        split
        · rfl
        · obtain ⟨r, hstep⟩ := Option.isSome_iff_exists.mp
            (tilde2Step_isSome c bit numRows s hwf hb hinv)
          rw [hstep]
          simp only [Option.bind_eq_bind, Option.some_bind]
          cases r with
          | halt => rfl
          | cont s' =>
            exact ih _ (tilde2Step_inv c bit numRows s hinv s' hstep)

theorem dotnet_parse_tilde_isSome (pe : PEImage) (metadataRoot cliOff : Int)
    (tref sref bref : StreamRef) (out : Output)
    (hmr : 0 ≤ metadataRoot) (hcli : fits pe cliOff 72 = true) :
    (dotnet_parse_tilde pe metadataRoot cliOff tref sref bref out).isSome = true := by
  unfold dotnet_parse_tilde
  dsimp only
  split
  · rfl
  next hfit =>
    rw [Bool.not_eq_true, Bool.not_eq_false] at hfit
    obtain ⟨hs, hhs⟩ := Option.isSome_iff_exists.mp
      (readLE_isSome_of_fits hfit (d := 6) (k := 1) (by omega))
    obtain ⟨valid, hvalid⟩ := Option.isSome_iff_exists.mp
      (readLE_isSome_of_fits hfit (d := 8) (k := 8) (by omega))
    norm_num at hhs hvalid
    rw [hhs, hvalid]
    simp only [Option.bind_eq_bind, Option.some_bind]
    obtain ⟨ri, hri⟩ := Option.isSome_iff_exists.mp
      (pass1Go_isSome pe valid _ (List.range 64) 0 {} _)
    rw [hri]
    simp only [Option.bind_eq_bind, Option.some_bind]
    obtain ⟨resVA, hres⟩ := Option.isSome_iff_exists.mp
      (readLE_isSome_of_fits hcli (d := 24) (k := 4) (by omega))
    norm_num at hres
    rw [hres]
    simp only [Option.bind_eq_bind, Option.some_bind]
    have hwf : IsizWF ri.2 := by
      refine pass1Go_wf pe valid _ (List.range 64) 0 {} _ ri ?_ hri
      refine ⟨?_, ?_, Or.inl rfl⟩ <;> dsimp only <;> split <;> simp
    obtain ⟨s, hs2⟩ := Option.isSome_iff_exists.mp
      (tilde2Go_isSome
        { pe := pe, valid := valid, rowOffB := metadataRoot + (tref.off : Int) + 24
          resourceBase := pe.rvaToOff resVA, rows := ri.1, isz := ri.2
          strOff := metadataRoot + (sref.off : Int)
          blobBase := metadataRoot + (bref.off : Int) }
        hwf (by positivity) (List.range 64)
        { tableOff := metadataRoot + (tref.off : Int) + 24 +
            ((4 * popCount64 valid : Nat) : Int)
          matchedBits := 0, out := out }
        ⟨fun p sz h => Option.noConfusion h, fun p sz h => Option.noConfusion h⟩)
    rw [hs2]
    rfl

theorem probeFlavor_isSome (pe : PEImage) : (probeFlavor pe).isSome = true := by
  unfold probeFlavor
  split
  · split <;> rfl
  · split
    · dsimp only
      split
      · rfl
      next he =>
        rw [not_or, Bool.not_eq_true, Bool.not_eq_false] at he
        obtain ⟨e0, he0⟩ := Option.isSome_iff_exists.mp
          (readLE_isSome_of_fits he.2 (d := 0) (k := 1) (by omega))
        obtain ⟨e1, he1⟩ := Option.isSome_iff_exists.mp
          (readLE_isSome_of_fits he.2 (d := 1) (k := 1) (by omega))
        norm_num at he0 he1
        rw [he0, he1]
        simp only [Option.bind_eq_bind, Option.some_bind]
        split <;> rfl
    · rfl

theorem probeMetadata_isSome (pe : PEImage) (metadataRoot : Int) :
    (probeMetadata pe metadataRoot).isSome = true := by
  unfold probeMetadata
  split
  · rfl
  next h16 =>
    rw [Bool.not_eq_true, Bool.not_eq_false] at h16
    obtain ⟨magic, hmg⟩ := Option.isSome_iff_exists.mp
      (readLE_isSome_of_fits h16 (d := 0) (k := 4) (by omega))
    norm_num at hmg
    rw [hmg]
    simp only [Option.bind_eq_bind, Option.some_bind]
    split
    · rfl
    · obtain ⟨mdLen, hml⟩ := Option.isSome_iff_exists.mp
        (readLE_isSome_of_fits h16 (d := 12) (k := 4) (by omega))
      norm_num at hml
      rw [hml]
      simp only [Option.bind_eq_bind, Option.some_bind]
      split
      · rfl
      · exact probeFlavor_isSome pe

theorem dotnet_is_dotnet_isSome (pe : PEImage) :
    (dotnet_is_dotnet pe).isSome = true := by
  unfold dotnet_is_dotnet
  split
  · rfl
  next va heq =>
    dsimp only
    split
    · rfl
    next h =>
      rw [not_or, Bool.not_eq_true, Bool.not_eq_false] at h
      obtain ⟨cliSize, hcs⟩ := Option.isSome_iff_exists.mp
        (readLE_isSome_of_fits h.2 (d := 0) (k := 4) (by omega))
      norm_num at hcs
      rw [hcs]
      simp only [Option.bind_eq_bind, Option.some_bind]
      split
      · rfl
      · obtain ⟨mdVA, hmv⟩ := Option.isSome_iff_exists.mp
          (readLE_isSome_of_fits h.2 (d := 8) (k := 4) (by omega))
        norm_num at hmv
        rw [hmv]
        simp only [Option.bind_eq_bind, Option.some_bind]
        exact probeMetadata_isSome pe _

theorem dotnet_parse_stages_isSome (pe : PEImage) (metadataRoot cliOff : Int)
    (st : StreamsSt) (out : Output)
    (hmr : 0 ≤ metadataRoot) (hcli : fits pe cliOff 72 = true) :
    (dotnet_parse_stages pe metadataRoot cliOff st out).isSome = true := by
  unfold dotnet_parse_stages
  obtain ⟨out3, h3⟩ : ∃ out3,
      (match st.guid with
        | some g => dotnet_parse_guid pe metadataRoot g.off g.size out
        | none => some out) = some out3 := by
    cases st.guid with
    | some g =>
      exact Option.isSome_iff_exists.mp (dotnet_parse_guid_isSome pe _ g.off g.size out)
    | none => exact ⟨out, rfl⟩
  rw [h3]
  simp only [Option.bind_eq_bind, Option.some_bind]
  obtain ⟨out4, h4⟩ : ∃ out4,
      (match st.tilde, st.string, st.blob with
        | some t, some sr, some b =>
          dotnet_parse_tilde pe metadataRoot cliOff t sr b out3
        | _, _, _ => some out3) = some out4 := by
    rcases st.tilde with - | t <;> rcases st.string with - | sr <;>
      rcases st.blob with - | b <;> try exact ⟨out3, rfl⟩
    exact Option.isSome_iff_exists.mp
      (dotnet_parse_tilde_isSome pe _ _ t sr b out3 hmr hcli)
  rw [h4]
  simp only [Option.bind_eq_bind, Option.some_bind]
  cases st.us with
  | some u => exact dotnet_parse_us_isSome pe _ u.off u.size out4
  | none => rfl

theorem dotnet_parse_com_md_isSome (pe : PEImage) (metadataRoot cliOff : Int)
    (out0 : Output) (hmr0 : fits pe metadataRoot 16 = true)
    (hcli : fits pe cliOff 72 = true) :
    (dotnet_parse_com_md pe metadataRoot cliOff out0).isSome = true := by
  unfold dotnet_parse_com_md
  obtain ⟨mdLen, hml⟩ := Option.isSome_iff_exists.mp
    (readLE_isSome_of_fits hmr0 (d := 12) (k := 4) (by omega))
  norm_num at hml
  rw [hml]
  simp only [Option.bind_eq_bind, Option.some_bind]
  split
  · rfl
  next hver =>
    have hvfit : fits pe (metadataRoot + 16) mdLen = true := by
      rcases not_or.mp hver with ⟨-, hrest⟩
      rcases not_or.mp hrest with ⟨-, hrest2⟩
      rcases not_or.mp hrest2 with ⟨-, hfit⟩
      exact not_not.mp hfit
    obtain ⟨ver, hverb⟩ := Option.isSome_iff_exists.mp (fits_readBytes hvfit)
    rw [hverb]
    simp only [Option.bind_eq_bind, Option.some_bind]
    split
    · rfl
    next h2fit =>
      rw [Bool.not_eq_true, Bool.not_eq_false] at h2fit
      obtain ⟨ns, hns⟩ := Option.isSome_iff_exists.mp
        (readLE_isSome_of_fits h2fit (d := 0) (k := 1) (by omega))
      norm_num at hns
      rw [hns]
      simp only [Option.bind_eq_bind, Option.some_bind]
      obtain ⟨so, hso⟩ := Option.isSome_iff_exists.mp
        (dotnet_parse_stream_headers_isSome pe _ _ ns _)
      rw [hso]
      simp only [Option.bind_eq_bind, Option.some_bind]
      exact dotnet_parse_stages_isSome pe metadataRoot cliOff so.1 so.2
        (fits_iff.mp hmr0).2.1 hcli

/-- Totality and memory safety of the whole parse: for every buffer and
every behaviour of the PE collaborators, `dotnet_parse_com` returns a
result, i.e. it never performs a read outside `[0, data_size)` (those
return `none` and propagate), never aborts, and terminates (all recursion
in this development is structurally bounded). -/
theorem dotnet_parse_com_isSome (pe : PEImage) :
    (dotnet_parse_com pe).isSome = true := by
  unfold dotnet_parse_com
  obtain ⟨probe, hprobe⟩ := Option.isSome_iff_exists.mp (dotnet_is_dotnet_isSome pe)
  rw [hprobe]
  simp only [Option.bind_eq_bind, Option.some_bind]
  split
  · rfl
  · split
    · rfl
    next va heq =>
      split
      · rfl
      next h =>
        rw [not_or, Bool.not_eq_true, Bool.not_eq_false] at h
        obtain ⟨mdVA, hmv⟩ := Option.isSome_iff_exists.mp
          (readLE_isSome_of_fits h.2 (d := 8) (k := 4) (by omega))
        norm_num at hmv
        rw [hmv]
        simp only [Option.bind_eq_bind, Option.some_bind]
        split
        · rfl
        next h16 =>
          rw [Bool.not_eq_true, Bool.not_eq_false] at h16
          exact dotnet_parse_com_md_isSome pe _ _ _ h16 h.2

/-! ### The blob-decode table (claim C2). -/

/-- Disjoint-bit disjunction is addition. -/
theorem lor_eq_add {a b : Nat} (i : Nat) (ha : 2 ^ i ∣ a) (hb : b < 2 ^ i) :
    a ||| b = a + b := by
  obtain ⟨c, rfl⟩ := ha
  apply Nat.eq_of_testBit_eq
  intro j
  rw [Nat.testBit_lor, Nat.testBit_mul_pow_two, Nat.testBit_mul_pow_two_add c hb]
  by_cases h : j < i
  · simp [h, Nat.not_le_of_lt h]
  · have hbj : b.testBit j = false :=
      Nat.testBit_lt_two_pow
        (lt_of_lt_of_le hb (Nat.pow_le_pow_right (by norm_num) (Nat.le_of_not_lt h)))
    simp [h, hbj, Nat.le_of_not_lt h]

set_option maxRecDepth 4000 in
theorem and_top1 {b0 : Nat} (h : b0 < 256) : (b0 &&& 0x80 = 0) ↔ b0 < 128 := by
  have : ∀ x : Fin 256, (((x : Nat) &&& 0x80 = 0) ↔ (x : Nat) < 128) := by decide
  exact this ⟨b0, h⟩

set_option maxRecDepth 4000 in
theorem and_top2 {b0 : Nat} (h : b0 < 256) :
    (b0 &&& 0xC0 = 0x80) ↔ 128 ≤ b0 ∧ b0 < 192 := by
  have : ∀ x : Fin 256,
      (((x : Nat) &&& 0xC0 = 0x80) ↔ 128 ≤ (x : Nat) ∧ (x : Nat) < 192) := by decide
  exact this ⟨b0, h⟩

set_option maxRecDepth 4000 in
theorem and_top3 {b0 : Nat} (h : b0 < 256) :
    (b0 &&& 0xE0 = 0xC0) ↔ 192 ≤ b0 ∧ b0 < 224 := by
  have : ∀ x : Fin 256,
      (((x : Nat) &&& 0xE0 = 0xC0) ↔ 192 ≤ (x : Nat) ∧ (x : Nat) < 224) := by decide
  exact this ⟨b0, h⟩

theorem and_low6 {b0 : Nat} (h1 : 128 ≤ b0) (h2 : b0 < 192) :
    b0 &&& 0x3F = b0 - 128 := by
  have : (0x3F : Nat) = 2 ^ 6 - 1 := by norm_num
  rw [this, Nat.and_pow_two_sub_one_eq_mod]
  omega

theorem and_low5 {b0 : Nat} (h1 : 192 ≤ b0) (h2 : b0 < 224) :
    b0 &&& 0x1F = b0 - 192 := by
  have : (0x1F : Nat) = 2 ^ 5 - 1 := by norm_num
  rw [this, Nat.and_pow_two_sub_one_eq_mod]
  omega

/-- The blob-decode table in the claim's own vocabulary (prefix ranges and
plain arithmetic; the ECMA terminal-byte decrement is truncated subtraction,
which is "decrement if nonzero" on naturals), with the one correction the
code forces: the 110-prefix case also requires a byte beyond the four
consumed ones to exist (`off + 4 < data_size`). -/
def blobEntrySpec (pe : PEImage) (off : Int) : BlobRes :=
  if ¬ fits pe off 1 then ⟨0, 0⟩
  else
    let b0 := byteAt pe off.toNat
    if b0 < 128 then ⟨b0 - 1, 1⟩
    else if b0 < 192 then
      if fits pe off 2 then
        ⟨(b0 - 128) * 256 + byteAt pe (off.toNat + 1) - 1, 2⟩
      else ⟨0, 0⟩
    else if b0 < 224 then
      if off + 4 < dataSize pe then
        if fits pe off 4 then
          ⟨(b0 - 192) * 16777216 + byteAt pe (off.toNat + 1) * 65536 +
            byteAt pe (off.toNat + 2) * 256 + byteAt pe (off.toNat + 3) - 1, 4⟩
        else ⟨0, 0⟩
      else ⟨0, 0⟩
    else ⟨0, 0⟩

theorem leVal_one (pe : PEImage) (s : Nat) : leVal pe s 1 = byteAt pe s := by
  simp [leVal]

theorem readLE_one {pe : PEImage} {off : Int} {b : Nat}
    (h : readLE pe off 1 = some b) : b = byteAt pe off.toNat := by
  unfold readLE at h
  split at h
  · cases h
    exact (leVal_one pe off.toNat)
  · cases h

theorem toNat_add_one {off : Int} (h : 0 ≤ off) :
    (off + 1).toNat = off.toNat + 1 := by omega

theorem blob_entry_eq_spec (pe : PEImage) (off : Int) :
    dotnet_parse_blob_entry pe off = some (blobEntrySpec pe off) := by
  unfold dotnet_parse_blob_entry blobEntrySpec
  dsimp only
  split
  · rfl
  next hfit =>
    rw [Bool.not_eq_true, Bool.not_eq_false] at hfit
    rcases fits_iff.mp hfit with ⟨-, h0le, h1le⟩
    rw [readLE_eq_some h0le (by push_cast at h1le ⊢; omega), leVal_one]
    simp only [Option.bind_eq_bind, Option.some_bind]
    have hb0lt : byteAt pe off.toNat < 256 := byteAt_lt pe off.toNat
    by_cases h128 : byteAt pe off.toNat < 128
    · rw [if_pos ((and_top1 hb0lt).mpr h128), if_pos h128]
      by_cases hz : byteAt pe off.toNat > 0
      · rw [if_pos hz]
        rfl
      · rw [if_neg hz, show byteAt pe off.toNat = 0 by omega]
        rfl
    · have hc1 : ¬ (byteAt pe off.toNat &&& 0x80 = 0) := by
        rw [and_top1 hb0lt]; omega
      rw [if_neg hc1, if_neg h128]
      by_cases h192 : byteAt pe off.toNat < 192
      · have hc2 : byteAt pe off.toNat &&& 0xC0 = 0x80 :=
          (and_top2 hb0lt).mpr ⟨by omega, h192⟩
        rw [if_pos hc2, if_pos h192]
        by_cases hf2 : fits pe off 2 = true
        · rw [if_neg (show ¬ (¬ fits pe off 2 = true) from by simp [hf2]), if_pos hf2]
          rcases fits_iff.mp hf2 with ⟨-, -, h2le⟩
          rw [readLE_eq_some (by omega) (by push_cast at h2le ⊢; omega), leVal_one,
            toNat_add_one h0le]
          simp only [Option.bind_eq_bind, Option.some_bind]
          have hb1lt : byteAt pe (off.toNat + 1) < 256 := byteAt_lt pe _
          have hval : ((byteAt pe off.toNat &&& 0x3F) <<< 8) |||
              byteAt pe (off.toNat + 1) =
              (byteAt pe off.toNat - 128) * 256 + byteAt pe (off.toNat + 1) := by
            rw [and_low6 (by omega) h192, Nat.shiftLeft_eq]
            rw [lor_eq_add 8 (dvd_mul_left _ _) (by omega)]
            norm_num
          rw [hval]
          by_cases hp : (byteAt pe off.toNat - 128) * 256 + byteAt pe (off.toNat + 1) > 0
          · rw [if_pos hp]
            rfl
          · rw [if_neg hp, show (byteAt pe off.toNat - 128) * 256 +
              byteAt pe (off.toNat + 1) = 0 by omega]
            rfl
        · rw [if_pos (show (¬ fits pe off 2 = true) from hf2), if_neg hf2]
          rfl
      · have hc2n : ¬ (byteAt pe off.toNat &&& 0xC0 = 0x80) := by
          rw [and_top2 hb0lt]; omega
        rw [if_neg hc2n, if_neg h192]
        by_cases h224 : byteAt pe off.toNat < 224
        · have hc3 : byteAt pe off.toNat &&& 0xE0 = 0xC0 :=
            (and_top3 hb0lt).mpr ⟨by omega, h224⟩
          rw [if_pos h224]
          by_cases havail : off + 4 < dataSize pe
          · rw [if_pos (show off + 4 < dataSize pe ∧
                byteAt pe off.toNat &&& 0xE0 = 0xC0 from ⟨havail, hc3⟩),
              if_pos havail]
            by_cases hf4 : fits pe off 4 = true
            · rw [if_neg (show ¬ (¬ fits pe off 4 = true) from by simp [hf4]),
                if_pos hf4]
              rcases fits_iff.mp hf4 with ⟨-, -, h4le⟩
              have hrd : ∀ d : Nat, 1 ≤ d → d ≤ 3 →
                  readLE pe (off + (d : Int)) 1 = some (byteAt pe (off.toNat + d)) := by
                intro d hd1 hd3
                rw [readLE_eq_some (by omega) (by push_cast at h4le ⊢; omega), leVal_one,
                  show ((off + (d : Int)).toNat = off.toNat + d) from by omega]
              have hr1 := hrd 1 (by omega) (by omega)
              have hr2 := hrd 2 (by omega) (by omega)
              have hr3 := hrd 3 (by omega) (by omega)
              norm_num at hr1 hr2 hr3
              rw [hr1, hr2, hr3]
              simp only [Option.bind_eq_bind, Option.some_bind]
              have hb1 : byteAt pe (off.toNat + 1) < 256 := byteAt_lt pe _
              have hb2 : byteAt pe (off.toNat + 2) < 256 := byteAt_lt pe _
              have hb3 : byteAt pe (off.toNat + 3) < 256 := byteAt_lt pe _
              have hval : ((byteAt pe off.toNat &&& 0x1F) <<< 24) |||
                  (byteAt pe (off.toNat + 1) <<< 16) |||
                  (byteAt pe (off.toNat + 2) <<< 8) ||| byteAt pe (off.toNat + 3) =
                  (byteAt pe off.toNat - 192) * 16777216 +
                    byteAt pe (off.toNat + 1) * 65536 +
                    byteAt pe (off.toNat + 2) * 256 + byteAt pe (off.toNat + 3) := by
                rw [and_low5 (by omega) h224, Nat.shiftLeft_eq, Nat.shiftLeft_eq,
                  Nat.shiftLeft_eq]
                rw [lor_eq_add 24 (dvd_mul_left _ _) (by omega)]
                rw [lor_eq_add 16
                  (dvd_add (dvd_mul_of_dvd_right (pow_dvd_pow 2 (by norm_num)) _)
                    (dvd_mul_left _ _)) (by omega)]
                rw [lor_eq_add 8
                  (dvd_add (dvd_add
                    (dvd_mul_of_dvd_right (pow_dvd_pow 2 (by norm_num)) _)
                    (dvd_mul_of_dvd_right (pow_dvd_pow 2 (by norm_num)) _))
                    (dvd_mul_left _ _)) (by omega)]
                norm_num
              rw [hval]
              by_cases hp : (byteAt pe off.toNat - 192) * 16777216 +
                  byteAt pe (off.toNat + 1) * 65536 +
                  byteAt pe (off.toNat + 2) * 256 + byteAt pe (off.toNat + 3) > 0
              · rw [if_pos hp]
                rfl
              · rw [if_neg hp, show (byteAt pe off.toNat - 192) * 16777216 +
                  byteAt pe (off.toNat + 1) * 65536 +
                  byteAt pe (off.toNat + 2) * 256 + byteAt pe (off.toNat + 3) = 0
                  by omega]
                rfl
            · rw [if_pos (show (¬ fits pe off 4 = true) from hf4), if_neg hf4]
              rfl
          · rw [if_neg (show ¬ (off + 4 < dataSize pe ∧
                byteAt pe off.toNat &&& 0xE0 = 0xC0) from fun h => havail h.1),
              if_neg havail]
            rfl
        · have hc3n : ¬ (byteAt pe off.toNat &&& 0xE0 = 0xC0) := by
            rw [and_top3 hb0lt]; omega
          rw [if_neg (show ¬ (off + 4 < dataSize pe ∧
              byteAt pe off.toNat &&& 0xE0 = 0xC0) from fun h => hc3n h.2),
            if_neg h224]
          rfl

/-! ### Abort behaviour of the table pass (claims C6 and C10). -/

/-- The bits that have a case in the 44-way switch of the second pass:
0 to 44 except 7 (`ParamPtr` has no case). -/
def isHandledBit (bit : Nat) : Bool :=
  match bit with
  | 0 | 1 | 2 | 3 | 4 | 5 | 6 | 8 | 9 | 10 | 11 | 12 | 13 | 14 | 15 | 16 | 17 | 18
  | 19 | 20 | 21 | 22 | 23 | 24 | 25 | 26 | 27 | 28 | 29 | 30 | 31 | 32 | 33 | 34
  | 35 | 36 | 37 | 38 | 39 | 40 | 41 | 42 | 43 | 44 => true
  | _ => false

theorem tilde2Step_unhandled (c : T2Ctx) (bit numRows : Nat) (s : T2St)
    (hunk : isHandledBit bit = false) :
    tilde2Step c bit numRows s = some .halt := by
  unfold tilde2Step
  split
  all_goals first
    | rfl
    | simp [isHandledBit] at hunk

/-- One unfolding step of the pass on a present bit. -/
theorem tilde2Go_cons (c : T2Ctx) (bit : Nat) (rest : List Nat) (s : T2St)
    (hpres : (c.valid >>> bit) &&& 1 = 1) :
    tilde2Go c (bit :: rest) s =
      if ¬ fits c.pe (c.rowOffB + ((4 * s.matchedBits : Nat) : Int)) 4 then some s
      else
        (readLE c.pe (c.rowOffB + ((4 * s.matchedBits : Nat) : Int)) 4).bind
          fun numRows =>
            if numRows > 10000 then some s
            else
              (tilde2Step c bit numRows s).bind fun r =>
                match r with
                | .halt => some s
                | .cont s' => tilde2Go c rest { s' with matchedBits := s'.matchedBits + 1 } := by
  conv =>
    lhs
    unfold tilde2Go
  rw [if_neg (show ¬ ((c.valid >>> bit) &&& 1 ≠ 1) from fun h => h hpres)]
  rfl

/-! ### Per-row behaviour of the CustomAttribute chase (claims C3 and C4). -/

theorem readLE_some_fits {pe : PEImage} {off : Int} {k : Nat} {v : Nat}
    (h : readLE pe off k = some v) : fits pe off k = true := by
  unfold readLE at h
  split at h
  · next hc => exact fits_iff.mpr ⟨by omega, hc.1, hc.2⟩
  · cases h

/-- The Value-blob part never breaks out of the row loop: a zero index, a
blob-decode failure or a malformed value only skips the row (or sets the
field). -/
theorem caValueStep_no_stop (c : T2Ctx) (bi : Nat) (r : CAStep)
    (h : caValueStep c bi = some r) : r ≠ CAStep.stop := by
  unfold caValueStep at h
  dsimp only at h
  split at h
  · cases h; simp
  · obtain ⟨br, -, h⟩ := Option.bind_eq_some.mp h
    split at h
    · cases h; simp
    · split at h
      · cases h; simp
      · obtain ⟨prolog, -, h⟩ := Option.bind_eq_some.mp h
        split at h
        · cases h; simp
        · obtain ⟨strLen, -, h⟩ := Option.bind_eq_some.mp h
          split at h
          · cases h; simp
          · obtain ⟨b0, -, h⟩ := Option.bind_eq_some.mp h
            split at h
            · cases h; simp
            · obtain ⟨bytes, -, h⟩ := Option.bind_eq_some.mp h
              cases h; simp

/-- The TypeRef part breaks out of the row loop only when the resolved
TypeRef row fails the bounds oracle. -/
theorem caNameStep_stop (c : T2Ctx) (trRow : Int) (trSize : Nat) (valOff : Int)
    (h : caNameStep c trRow trSize valOff = some CAStep.stop) :
    fits c.pe trRow trSize = false := by
  unfold caNameStep at h
  split at h
  · next hfit => rw [Bool.not_eq_true] at hfit; exact hfit
  · exfalso
    obtain ⟨nameIdx, -, h⟩ := Option.bind_eq_some.mp h
    split at h
    · cases h
    · obtain ⟨bi, -, h⟩ := Option.bind_eq_some.mp h
      exact caValueStep_no_stop c bi _ h rfl

/-- The MemberRef part breaks out of the row loop only when the resolved
MemberRef row, or the TypeRef row it selects, fails the bounds oracle. -/
theorem caClassStep_stop (c : T2Ctx) (trPtr : Int) (trSize : Nat) (mrRow : Int)
    (mrSize : Nat) (valOff : Int)
    (h : caClassStep c trPtr trSize mrRow mrSize valOff = some CAStep.stop) :
    fits c.pe mrRow mrSize = false ∨
      ∃ cls, readLE c.pe mrRow c.isz.memberref = some cls ∧
        fits c.pe (trPtr + ((trSize * decIndex (cls >>> 3) : Nat) : Int)) trSize
          = false := by
  unfold caClassStep at h
  split at h
  · next hfit => rw [Bool.not_eq_true] at hfit; exact Or.inl hfit
  · obtain ⟨cls, hcls, h⟩ := Option.bind_eq_some.mp h
    split at h
    · cases h
    · exact Or.inr ⟨cls, hcls, caNameStep_stop c _ trSize _ h⟩

/-- A CustomAttribute row produces `stop` only through one of the three
bounds-oracle failures of the chase (the row itself, the MemberRef row, or
the TypeRef row); tag mismatches and decode failures never do. -/
theorem caRowStep_stop (c : T2Ctx) (pSize tSize rowSize : Nat) (trPtr : Int)
    (trSize : Nat) (mrPtr : Int) (mrSize : Nat) (rowPtr : Int)
    (h : caRowStep c pSize tSize rowSize trPtr trSize mrPtr mrSize rowPtr =
      some CAStep.stop) :
    fits c.pe rowPtr rowSize = false ∨
      (∃ tv, readLE c.pe (rowPtr + (pSize : Int)) tSize = some tv ∧
        fits c.pe (mrPtr + ((mrSize * decIndex (tv >>> 3) : Nat) : Int)) mrSize
          = false) ∨
      (∃ tv cls, readLE c.pe (rowPtr + (pSize : Int)) tSize = some tv ∧
        readLE c.pe (mrPtr + ((mrSize * decIndex (tv >>> 3) : Nat) : Int))
          c.isz.memberref = some cls ∧
        fits c.pe (trPtr + ((trSize * decIndex (cls >>> 3) : Nat) : Int)) trSize
          = false) := by
  unfold caRowStep at h
  split at h
  · next hfit => rw [Bool.not_eq_true] at hfit; exact Or.inl hfit
  · obtain ⟨parent, -, h⟩ := Option.bind_eq_some.mp h
    split at h
    · cases h
    · obtain ⟨tv, htv, h⟩ := Option.bind_eq_some.mp h
      split at h
      · cases h
      · rcases caClassStep_stop c trPtr trSize _ mrSize _ h with hmr | ⟨cls, hcls, htr⟩
        · exact Or.inr (Or.inl ⟨tv, htv, hmr⟩)
        · exact Or.inr (Or.inr ⟨tv, cls, htv, hcls, htr⟩)

/-- A `stop` row truncates the CustomAttribute row loop: the remaining rows
are not walked and the output accumulated so far is returned. -/
theorem caLoop_succ_stop (c : T2Ctx) (pSize tSize rowSize : Nat) (trPtr : Int)
    (trSize : Nat) (mrPtr : Int) (mrSize : Nat) (n : Nat) (rowPtr : Int)
    (out : Output)
    (h : caRowStep c pSize tSize rowSize trPtr trSize mrPtr mrSize rowPtr =
      some CAStep.stop) :
    caLoop c pSize tSize rowSize trPtr trSize mrPtr mrSize (n + 1) rowPtr out =
      some out := by
  conv =>
    lhs
    unfold caLoop
  rw [h]
  rfl

/-- A `skip` row lets the CustomAttribute row loop continue with the next
row and an unchanged output. -/
theorem caLoop_succ_skip (c : T2Ctx) (pSize tSize rowSize : Nat) (trPtr : Int)
    (trSize : Nat) (mrPtr : Int) (mrSize : Nat) (n : Nat) (rowPtr : Int)
    (out : Output)
    (h : caRowStep c pSize tSize rowSize trPtr trSize mrPtr mrSize rowPtr =
      some CAStep.skip) :
    caLoop c pSize tSize rowSize trPtr trSize mrPtr mrSize (n + 1) rowPtr out =
      caLoop c pSize tSize rowSize trPtr trSize mrPtr mrSize n
        (rowPtr + (rowSize : Int)) out := by
  conv =>
    lhs
    unfold caLoop
  rw [h]
  rfl

/-- A `setTl` row overwrites `typelib` and lets the CustomAttribute row loop
continue with the next row. -/
theorem caLoop_succ_set (c : T2Ctx) (pSize tSize rowSize : Nat) (trPtr : Int)
    (trSize : Nat) (mrPtr : Int) (mrSize : Nat) (n : Nat) (rowPtr : Int)
    (out : Output) (v : List Nat)
    (h : caRowStep c pSize tSize rowSize trPtr trSize mrPtr mrSize rowPtr =
      some (CAStep.setTl v)) :
    caLoop c pSize tSize rowSize trPtr trSize mrPtr mrSize (n + 1) rowPtr out =
      caLoop c pSize tSize rowSize trPtr trSize mrPtr mrSize n
        (rowPtr + (rowSize : Int)) { out with typelib := some v } := by
  conv =>
    lhs
    unfold caLoop
  rw [h]
  rfl

/-- Claim C3 as literally stated: every failure outcome of one
CustomAttribute row (a `break` or a `continue` of the C loop) lets the loop
continue with the next row. -/
def caFailuresAlwaysContinue : Prop :=
  ∀ (c : T2Ctx) (pSize tSize rowSize : Nat) (trPtr : Int) (trSize : Nat)
    (mrPtr : Int) (mrSize : Nat) (n : Nat) (rowPtr : Int) (out : Output),
    (caRowStep c pSize tSize rowSize trPtr trSize mrPtr mrSize rowPtr =
        some CAStep.stop ∨
     caRowStep c pSize tSize rowSize trPtr trSize mrPtr mrSize rowPtr =
        some CAStep.skip) →
    caLoop c pSize tSize rowSize trPtr trSize mrPtr mrSize (n + 1) rowPtr out =
      caLoop c pSize tSize rowSize trPtr trSize mrPtr mrSize n
        (rowPtr + (rowSize : Int)) out

/-! ### Stream-directory reference policy (claim C5). -/

/-- The `Offset`/`Size` reference of an emitted stream record. -/
def streamRefOf (r : List Nat × Nat × Nat) : StreamRef := ⟨r.2.1, r.2.2⟩

/-- Name test of the `#~`/`#-` branch of the else-if chain. -/
def isTildeN (n : List Nat) : Bool := strncmpEq n tildeName || strncmpEq n dashName

/-- Name test of the `#GUID` branch. -/
def isGuidN (n : List Nat) : Bool := strncmpEq n guidName

/-- Name test of the `#Strings` branch. -/
def isStringsN (n : List Nat) : Bool := strncmpEq n stringsName

/-- Name test of the `#Blob` branch. -/
def isBlobN (n : List Nat) : Bool := strncmpEq n blobName

/-- Name test of the `#US` branch. -/
def isUsN (n : List Nat) : Bool := strncmpEq n usName

/-- Two prefix literals that disagree at some index cannot both match. -/
theorem strncmpEq_excl {name a b : List Nat} (i : Nat) (hia : i < a.length)
    (hib : i < b.length) (hne : a.getD i 0 ≠ b.getD i 0)
    (ha : strncmpEq name a = true) : strncmpEq name b = false := by
  unfold strncmpEq at *
  have key : ∀ c : List Nat, name.take c.length = c → i < c.length →
      c.getD i 0 = (name[i]?).getD 0 := by
    intro c hc hic
    rw [List.getD_eq_getElem?_getD, ← hc, List.getElem?_take, if_pos hic]
  by_contra hb
  rw [Bool.not_eq_false] at hb
  exact hne (by rw [key a (eq_of_beq ha) hia, key b (eq_of_beq hb) hib])

/-- A `#~`/`#-` name matches no other recognised prefix (all six literals
disagree at byte 1). -/
theorem tilde_excl {name : List Nat} (h : isTildeN name = true) :
    isGuidN name = false ∧ isStringsN name = false ∧ isBlobN name = false ∧
      isUsN name = false := by
  unfold isTildeN at h
  rw [Bool.or_eq_true] at h
  unfold isGuidN isStringsN isBlobN isUsN
  rcases h with h | h
  · exact ⟨strncmpEq_excl (b := guidName) 1 (by decide) (by decide) (by decide) h,
      strncmpEq_excl (b := stringsName) 1 (by decide) (by decide) (by decide) h,
      strncmpEq_excl (b := blobName) 1 (by decide) (by decide) (by decide) h,
      strncmpEq_excl (b := usName) 1 (by decide) (by decide) (by decide) h⟩
  · exact ⟨strncmpEq_excl (b := guidName) 1 (by decide) (by decide) (by decide) h,
      strncmpEq_excl (b := stringsName) 1 (by decide) (by decide) (by decide) h,
      strncmpEq_excl (b := blobName) 1 (by decide) (by decide) (by decide) h,
      strncmpEq_excl (b := usName) 1 (by decide) (by decide) (by decide) h⟩

/-- A `#GUID` name matches no other recognised prefix. -/
theorem guid_excl {name : List Nat} (h : isGuidN name = true) :
    isTildeN name = false ∧ isStringsN name = false ∧ isBlobN name = false ∧
      isUsN name = false := by
  unfold isGuidN at h
  unfold isTildeN isStringsN isBlobN isUsN
  rw [strncmpEq_excl (b := tildeName) 1 (by decide) (by decide) (by decide) h,
    strncmpEq_excl (b := dashName) 1 (by decide) (by decide) (by decide) h,
    strncmpEq_excl (b := stringsName) 1 (by decide) (by decide) (by decide) h,
    strncmpEq_excl (b := blobName) 1 (by decide) (by decide) (by decide) h,
    strncmpEq_excl (b := usName) 1 (by decide) (by decide) (by decide) h]
  exact ⟨rfl, rfl, rfl, rfl⟩

/-- A `#Strings` name matches neither `#~`/`#-` nor `#Blob` nor `#US`. -/
theorem strings_excl {name : List Nat} (h : isStringsN name = true) :
    isTildeN name = false ∧ isBlobN name = false ∧ isUsN name = false := by
  unfold isStringsN at h
  unfold isTildeN isBlobN isUsN
  rw [strncmpEq_excl (b := tildeName) 1 (by decide) (by decide) (by decide) h,
    strncmpEq_excl (b := dashName) 1 (by decide) (by decide) (by decide) h,
    strncmpEq_excl (b := blobName) 1 (by decide) (by decide) (by decide) h,
    strncmpEq_excl (b := usName) 1 (by decide) (by decide) (by decide) h]
  exact ⟨rfl, rfl, rfl⟩

/-- A `#Blob` name matches neither `#~`/`#-` nor `#US`. -/
theorem blob_excl {name : List Nat} (h : isBlobN name = true) :
    isTildeN name = false ∧ isUsN name = false := by
  unfold isBlobN at h
  unfold isTildeN isUsN
  rw [strncmpEq_excl (b := tildeName) 1 (by decide) (by decide) (by decide) h,
    strncmpEq_excl (b := dashName) 1 (by decide) (by decide) (by decide) h,
    strncmpEq_excl (b := usName) 1 (by decide) (by decide) (by decide) h]
  exact ⟨rfl, rfl⟩

/-- A `#US` name does not match `#~`/`#-`. -/
theorem us_excl {name : List Nat} (h : isUsN name = true) :
    isTildeN name = false := by
  unfold isUsN at h
  unfold isTildeN
  rw [strncmpEq_excl (b := tildeName) 1 (by decide) (by decide) (by decide) h,
    strncmpEq_excl (b := dashName) 1 (by decide) (by decide) (by decide) h]
  rfl

/-- Field-wise effect of the else-if chain on one stream header: the record
list is untouched; `#~`/`#-`, `#Strings` and `#US` update only an empty
slot, `#GUID` and `#Blob` update unconditionally. -/
theorem updateRefs_fields (st : StreamsSt) (name : List Nat) (r : StreamRef) :
    (updateRefs st name r).recs = st.recs ∧
    (updateRefs st name r).tilde =
      (if st.tilde = none ∧ isTildeN name = true then some r else st.tilde) ∧
    (updateRefs st name r).string =
      (if st.string = none ∧ isStringsN name = true then some r else st.string) ∧
    (updateRefs st name r).us =
      (if st.us = none ∧ isUsN name = true then some r else st.us) ∧
    (updateRefs st name r).guid =
      (if isGuidN name = true then some r else st.guid) ∧
    (updateRefs st name r).blob =
      (if isBlobN name = true then some r else st.blob) := by
  unfold updateRefs
  by_cases h1 : (strncmpEq name tildeName = true ∨ strncmpEq name dashName = true) ∧
      st.tilde = none
  · rw [if_pos h1]
    have hT : isTildeN name = true := by
      unfold isTildeN
      rw [Bool.or_eq_true]
      exact h1.1
    obtain ⟨hG, hS, hB, hU⟩ := tilde_excl hT
    refine ⟨rfl, ?_, ?_, ?_, ?_, ?_⟩
    · rw [if_pos ⟨h1.2, hT⟩]
    · rw [if_neg (show ¬ (st.string = none ∧ isStringsN name = true) from
        fun hx => by rw [hS] at hx; simp at hx)]
    · rw [if_neg (show ¬ (st.us = none ∧ isUsN name = true) from
        fun hx => by rw [hU] at hx; simp at hx)]
    · rw [if_neg (show ¬ isGuidN name = true from by rw [hG]; simp)]
    · rw [if_neg (show ¬ isBlobN name = true from by rw [hB]; simp)]
  · rw [if_neg h1]
    by_cases h2 : strncmpEq name guidName = true
    · rw [if_pos h2]
      have hGt : isGuidN name = true := h2
      obtain ⟨hT, hS, hB, hU⟩ := guid_excl hGt
      refine ⟨rfl, ?_, ?_, ?_, ?_, ?_⟩
      · rw [if_neg (show ¬ (st.tilde = none ∧ isTildeN name = true) from
          fun hx => by rw [hT] at hx; simp at hx)]
      · rw [if_neg (show ¬ (st.string = none ∧ isStringsN name = true) from
          fun hx => by rw [hS] at hx; simp at hx)]
      · rw [if_neg (show ¬ (st.us = none ∧ isUsN name = true) from
          fun hx => by rw [hU] at hx; simp at hx)]
      · rw [if_pos hGt]
      · rw [if_neg (show ¬ isBlobN name = true from by rw [hB]; simp)]
    · rw [if_neg h2]
      by_cases h3 : strncmpEq name stringsName = true ∧ st.string = none
      · rw [if_pos h3]
        have hSt : isStringsN name = true := h3.1
        obtain ⟨hT, hB, hU⟩ := strings_excl hSt
        refine ⟨rfl, ?_, ?_, ?_, ?_, ?_⟩
        · rw [if_neg (show ¬ (st.tilde = none ∧ isTildeN name = true) from
            fun hx => by rw [hT] at hx; simp at hx)]
        · rw [if_pos ⟨h3.2, hSt⟩]
        · rw [if_neg (show ¬ (st.us = none ∧ isUsN name = true) from
            fun hx => by rw [hU] at hx; simp at hx)]
        · rw [if_neg (show ¬ isGuidN name = true from h2)]
        · rw [if_neg (show ¬ isBlobN name = true from by rw [hB]; simp)]
      · rw [if_neg h3]
        by_cases h4 : strncmpEq name blobName = true
        · rw [if_pos h4]
          have hBt : isBlobN name = true := h4
          obtain ⟨hT, hU⟩ := blob_excl hBt
          refine ⟨rfl, ?_, ?_, ?_, ?_, ?_⟩
          · rw [if_neg (show ¬ (st.tilde = none ∧ isTildeN name = true) from
              fun hx => by rw [hT] at hx; simp at hx)]
          · rw [if_neg (show ¬ (st.string = none ∧ isStringsN name = true) from
              fun hx => h3 ⟨hx.2, hx.1⟩)]
          · rw [if_neg (show ¬ (st.us = none ∧ isUsN name = true) from
              fun hx => by rw [hU] at hx; simp at hx)]
          · rw [if_neg (show ¬ isGuidN name = true from h2)]
          · rw [if_pos hBt]
        · rw [if_neg h4]
          by_cases h5 : strncmpEq name usName = true ∧ st.us = none
          · rw [if_pos h5]
            have hUt : isUsN name = true := h5.1
            have hT := us_excl hUt
            refine ⟨rfl, ?_, ?_, ?_, ?_, ?_⟩
            · rw [if_neg (show ¬ (st.tilde = none ∧ isTildeN name = true) from
                fun hx => by rw [hT] at hx; simp at hx)]
            · rw [if_neg (show ¬ (st.string = none ∧ isStringsN name = true) from
                fun hx => h3 ⟨hx.2, hx.1⟩)]
            · rw [if_pos ⟨h5.2, hUt⟩]
            · rw [if_neg (show ¬ isGuidN name = true from h2)]
            · rw [if_neg (show ¬ isBlobN name = true from h4)]
          · rw [if_neg h5]
            refine ⟨rfl, ?_, ?_, ?_, ?_, ?_⟩
            · rw [if_neg (show ¬ (st.tilde = none ∧ isTildeN name = true) from
                fun hx => h1 ⟨by
                  have hx2 := hx.2
                  unfold isTildeN at hx2
                  rw [Bool.or_eq_true] at hx2
                  exact hx2, hx.1⟩)]
            · rw [if_neg (show ¬ (st.string = none ∧ isStringsN name = true) from
                fun hx => h3 ⟨hx.2, hx.1⟩)]
            · rw [if_neg (show ¬ (st.us = none ∧ isUsN name = true) from
                fun hx => h5 ⟨hx.2, hx.1⟩)]
            · rw [if_neg (show ¬ isGuidN name = true from h2)]
            · rw [if_neg (show ¬ isBlobN name = true from h4)]

/-- A first-match fold (update only while the slot is empty) computes the
slot's old value, or else the first matching element. -/
theorem foldl_first_eq_find {α β : Type} [DecidableEq β] (f : α → Bool) (g : α → β) :
    ∀ (l : List α) (a : Option β),
      l.foldl (fun acc r => if acc = none ∧ f r = true then some (g r) else acc) a =
        a.or ((l.find? f).map g) := by
  intro l
  induction l with
  | nil =>
    intro a
    cases a <;> simp
  | cons x xs ih =>
    intro a
    rw [List.foldl_cons, ih]
    cases a with
    | some b => simp
    | none =>
      by_cases hx : f x = true
      · simp [List.find?_cons_of_pos _ hx, hx]
      · simp [List.find?_cons_of_neg _ hx, hx]

/-- A last-match fold (update on every match) computes the last matching
element, or else the slot's old value. -/
theorem foldl_last_eq_rev {α β : Type} (f : α → Bool) (g : α → β) :
    ∀ (l : List α) (a : Option β),
      l.foldl (fun acc r => if f r = true then some (g r) else acc) a =
        ((l.reverse.find? f).map g).or a := by
  intro l
  induction l with
  | nil =>
    intro a
    simp
  | cons x xs ih =>
    intro a
    rw [List.foldl_cons, ih, List.reverse_cons, List.find?_append]
    by_cases hx : f x = true
    · cases hfind : xs.reverse.find? f with
      | none => simp [hfind, List.find?, hx, Option.or]
      | some v => simp [hfind, Option.or]
    · cases hfind : xs.reverse.find? f with
      | none => simp [hfind, List.find?, hx, Option.or]
      | some v => simp [hfind, Option.or]

/-- The stream-directory walk appends its records and updates each typed
reference by its fold policy: first-match for `#~`/`#-`, `#Strings` and
`#US`, every-match (so last-match) for `#GUID` and `#Blob`. -/
theorem streamLoop_refs (pe : PEImage) :
    ∀ (n : Nat) (hdrOff : Int) (st st' : StreamsSt),
      streamLoop pe n hdrOff st = some st' →
      ∃ ns, st'.recs = st.recs ++ ns ∧
        st'.tilde = ns.foldl
          (fun a r => if a = none ∧ isTildeN r.1 = true then some (streamRefOf r) else a)
          st.tilde ∧
        st'.string = ns.foldl
          (fun a r => if a = none ∧ isStringsN r.1 = true then some (streamRefOf r) else a)
          st.string ∧
        st'.us = ns.foldl
          (fun a r => if a = none ∧ isUsN r.1 = true then some (streamRefOf r) else a)
          st.us ∧
        st'.guid = ns.foldl
          (fun a r => if isGuidN r.1 = true then some (streamRefOf r) else a) st.guid ∧
        st'.blob = ns.foldl
          (fun a r => if isBlobN r.1 = true then some (streamRefOf r) else a) st.blob := by
  intro n
  induction n with
  | zero =>
    intro hdrOff st st' h
    cases h
    exact ⟨[], by simp, rfl, rfl, rfl, rfl, rfl⟩
  | succ n ih =>
    intro hdrOff st st' h
    unfold streamLoop at h
    split at h
    · cases h
      exact ⟨[], by simp, rfl, rfl, rfl, rfl, rfl⟩
    · split at h
      · cases h
        exact ⟨[], by simp, rfl, rfl, rfl, rfl, rfl⟩
      · obtain ⟨window, -, h⟩ := Option.bind_eq_some.mp h
        split at h
        · cases h
          exact ⟨[], by simp, rfl, rfl, rfl, rfl, rfl⟩
        · next k heq =>
          obtain ⟨offv, -, h⟩ := Option.bind_eq_some.mp h
          obtain ⟨sizev, -, h⟩ := Option.bind_eq_some.mp h
          obtain ⟨ns, hrecs, ht, hs, hu, hg, hb⟩ := ih _ _ _ h
          obtain ⟨frecs, ftilde, fstring, fus, fguid, fblob⟩ :=
            updateRefs_fields { st with recs := st.recs ++ [(window.take k, offv, sizev)] }
              (window.take k) ⟨offv, sizev⟩
          refine ⟨(window.take k, offv, sizev) :: ns, ?_, ?_, ?_, ?_, ?_, ?_⟩
          · rw [hrecs, frecs]
            simp
          · rw [ht, List.foldl_cons, ftilde]
            rfl
          · rw [hs, List.foldl_cons, fstring]
            rfl
          · rw [hu, List.foldl_cons, fus]
            rfl
          · rw [hg, List.foldl_cons, fguid]
            rfl
          · rw [hb, List.foldl_cons, fblob]
            rfl

/-! ### Field preservation through the heap/table stages (claims C7, C9). -/

/-- The probe- and stream-owned output fields: set before the heap/table
stages and never touched by them. -/
def metaView (o : Output) : Option Nat × List (List Nat × Int × Nat) × Option Nat :=
  (o.is_dotnet, o.streams, o.number_of_streams)

theorem dotnet_parse_guid_meta (pe : PEImage) (metadataRoot : Int)
    (guidOff guidSize : Nat) (out out' : Output)
    (h : dotnet_parse_guid pe metadataRoot guidOff guidSize out = some out') :
    metaView out' = metaView out := by
  unfold dotnet_parse_guid at h
  obtain ⟨r, -, h⟩ := Option.bind_eq_some.mp h
  cases h
  rfl

theorem dotnet_parse_us_meta (pe : PEImage) (metadataRoot : Int)
    (usOff usSize : Nat) (out out' : Output)
    (h : dotnet_parse_us pe metadataRoot usOff usSize out = some out') :
    metaView out' = metaView out := by
  unfold dotnet_parse_us at h
  dsimp only at h
  split at h
  · cases h
    rfl
  · obtain ⟨b, -, h⟩ := Option.bind_eq_some.mp h
    split at h
    · cases h
      rfl
    · obtain ⟨r, -, h⟩ := Option.bind_eq_some.mp h
      cases h
      rfl

theorem caseModule_meta (c : T2Ctx) (numRows : Nat) (tableOff : Int)
    (out : Output) (t : Int) (o' : Output)
    (h : caseModule c numRows tableOff out = some (t, o')) :
    metaView o' = metaView out := by
  unfold caseModule at h
  split at h
  · cases h
    rfl
  · obtain ⟨idx, -, h⟩ := Option.bind_eq_some.mp h
    cases h
    cases pe_get_dotnet_string c.pe c.strOff idx <;> rfl

theorem caseConstant_meta (c : T2Ctx) (numRows : Nat) (tableOff : Int)
    (out : Output) (t : Int) (o' : Output)
    (h : caseConstant c numRows tableOff out = some (t, o')) :
    metaView o' = metaView out := by
  unfold caseConstant at h
  obtain ⟨r, -, h⟩ := Option.bind_eq_some.mp h
  cases h
  rfl

theorem caLoop_meta (c : T2Ctx) (pSize tSize rowSize : Nat) (trPtr : Int)
    (trSize : Nat) (mrPtr : Int) (mrSize : Nat) :
    ∀ (n : Nat) (rowPtr : Int) (out out' : Output),
      caLoop c pSize tSize rowSize trPtr trSize mrPtr mrSize n rowPtr out = some out' →
      metaView out' = metaView out := by
  intro n
  induction n with
  | zero =>
    intro rowPtr out out' h
    cases h
    rfl
  | succ n ih =>
    intro rowPtr out out' h
    unfold caLoop at h
    obtain ⟨st, -, h⟩ := Option.bind_eq_some.mp h
    cases st with
    | stop =>
      cases h
      rfl
    | skip => exact ih _ _ _ h
    | setTl v => exact (ih _ _ _ h).trans rfl

theorem caseCustomattribute_meta (c : T2Ctx) (numRows : Nat)
    (trInfo mrInfo : Option (Int × Nat)) (tableOff : Int) (out : Output)
    (t : Int) (o' : Output)
    (h : caseCustomattribute c numRows trInfo mrInfo tableOff out = some (t, o')) :
    metaView o' = metaView out := by
  unfold caseCustomattribute at h
  match trInfo, mrInfo with
  | some tr, some mr =>
    obtain ⟨o1, h1, h⟩ := Option.bind_eq_some.mp h
    cases h
    exact caLoop_meta c _ _ _ _ _ _ _ _ _ _ _ h1
  | none, none =>
    cases h
    rfl
  | none, some mr =>
    cases h
    rfl
  | some tr, none =>
    cases h
    rfl

theorem caseModuleref_meta (c : T2Ctx) (numRows : Nat) (tableOff : Int)
    (out : Output) (t : Int) (o' : Output)
    (h : caseModuleref c numRows tableOff out = some (t, o')) :
    metaView o' = metaView out := by
  unfold caseModuleref at h
  obtain ⟨r, -, h⟩ := Option.bind_eq_some.mp h
  cases h
  rfl

theorem caseFieldrva_meta (c : T2Ctx) (numRows : Nat) (tableOff : Int)
    (out : Output) (t : Int) (o' : Output)
    (h : caseFieldrva c numRows tableOff out = some (t, o')) :
    metaView o' = metaView out := by
  unfold caseFieldrva at h
  obtain ⟨r, -, h⟩ := Option.bind_eq_some.mp h
  cases h
  rfl

theorem caseAssembly_meta (c : T2Ctx) (numRows : Nat) (tableOff : Int)
    (out : Output) (t : Int) (o' : Output)
    (h : caseAssembly c numRows tableOff out = some (t, o')) :
    metaView o' = metaView out := by
  unfold caseAssembly at h
  dsimp only at h
  split at h
  · cases h
    rfl
  · obtain ⟨mj, -, h⟩ := Option.bind_eq_some.mp h
    obtain ⟨mn, -, h⟩ := Option.bind_eq_some.mp h
    obtain ⟨bd, -, h⟩ := Option.bind_eq_some.mp h
    obtain ⟨rv, -, h⟩ := Option.bind_eq_some.mp h
    obtain ⟨nameIdx, -, h⟩ := Option.bind_eq_some.mp h
    obtain ⟨cultIdx, -, h⟩ := Option.bind_eq_some.mp h
    cases h
    cases pe_get_dotnet_string c.pe c.strOff cultIdx with
    | none => cases pe_get_dotnet_string c.pe c.strOff nameIdx <;> rfl
    | some cu =>
      cases pe_get_dotnet_string c.pe c.strOff nameIdx <;>
        dsimp only <;> split <;> rfl

theorem caseAssemblyref_meta (c : T2Ctx) (numRows : Nat) (tableOff : Int)
    (out : Output) (t : Int) (o' : Output)
    (h : caseAssemblyref c numRows tableOff out = some (t, o')) :
    metaView o' = metaView out := by
  unfold caseAssemblyref at h
  obtain ⟨r, -, h⟩ := Option.bind_eq_some.mp h
  cases h
  rfl

theorem caseManifestresource_meta (c : T2Ctx) (numRows : Nat) (tableOff : Int)
    (out : Output) (t : Int) (o' : Output)
    (h : caseManifestresource c numRows tableOff out = some (t, o')) :
    metaView o' = metaView out := by
  unfold caseManifestresource at h
  obtain ⟨r, -, h⟩ := Option.bind_eq_some.mp h
  cases h
  rfl

theorem tilde2Step_meta (c : T2Ctx) (bit numRows : Nat) (s : T2St) (r : T2Res)
    (h : tilde2Step c bit numRows s = some r) :
    ∀ s', r = T2Res.cont s' → metaView s'.out = metaView s.out := by
  intro s' hr
  subst hr
  unfold tilde2Step at h
  split at h
  all_goals
    first
      | (unfold skipRows at h
         cases h
         rfl)
      | (cases h
         rfl)
      | (cases h)
      | (obtain ⟨p, hcase, heq⟩ := Option.map_eq_some'.mp h
         unfold contWith at heq
         cases heq
         first
           | exact caseModule_meta _ _ _ _ _ _ hcase
           | exact caseConstant_meta _ _ _ _ _ _ hcase
           | exact caseCustomattribute_meta _ _ _ _ _ _ _ _ hcase
           | exact caseModuleref_meta _ _ _ _ _ _ hcase
           | exact caseFieldrva_meta _ _ _ _ _ _ hcase
           | exact caseAssembly_meta _ _ _ _ _ _ hcase
           | exact caseAssemblyref_meta _ _ _ _ _ _ hcase
           | exact caseManifestresource_meta _ _ _ _ _ _ hcase)

theorem tilde2Go_meta (c : T2Ctx) : ∀ (bits : List Nat) (s s' : T2St),
    tilde2Go c bits s = some s' → metaView s'.out = metaView s.out := by
  intro bits
  induction bits with
  | nil =>
    intro s s' h
    cases h
    rfl
  | cons bit rest ih =>
    intro s s' h
    unfold tilde2Go at h
    split at h
    · exact ih _ _ h
    · split at h
      · cases h
        rfl
      · obtain ⟨numRows, -, h⟩ := Option.bind_eq_some.mp h
        split at h
        · cases h
          rfl
        · obtain ⟨r, hstep, h⟩ := Option.bind_eq_some.mp h
          cases r with
          | halt =>
            cases h
            rfl
          | cont s1 =>
            exact (ih _ _ h).trans (tilde2Step_meta c bit numRows s _ hstep s1 rfl)

theorem dotnet_parse_tilde_meta (pe : PEImage) (metadataRoot cliOff : Int)
    (tref sref bref : StreamRef) (out out' : Output)
    (h : dotnet_parse_tilde pe metadataRoot cliOff tref sref bref out = some out') :
    metaView out' = metaView out := by
  unfold dotnet_parse_tilde at h
  dsimp only at h
  split at h
  · cases h
    rfl
  · obtain ⟨heapSizes, -, h⟩ := Option.bind_eq_some.mp h
    obtain ⟨valid, -, h⟩ := Option.bind_eq_some.mp h
    obtain ⟨ri, -, h⟩ := Option.bind_eq_some.mp h
    obtain ⟨resVA, -, h⟩ := Option.bind_eq_some.mp h
    obtain ⟨s, hgo, h⟩ := Option.bind_eq_some.mp h
    cases h
    exact tilde2Go_meta _ _ _ _ hgo

theorem dotnet_parse_stages_meta (pe : PEImage) (metadataRoot cliOff : Int)
    (st : StreamsSt) (out out' : Output)
    (h : dotnet_parse_stages pe metadataRoot cliOff st out = some out') :
    metaView out' = metaView out := by
  unfold dotnet_parse_stages at h
  obtain ⟨o3, h3, h⟩ := Option.bind_eq_some.mp h
  obtain ⟨o4, h4, h⟩ := Option.bind_eq_some.mp h
  have e3 : metaView o3 = metaView out := by
    rcases hg : st.guid with - | g
    · rw [hg] at h3
      cases h3
      rfl
    · rw [hg] at h3
      exact dotnet_parse_guid_meta _ _ _ _ _ _ h3
  have e4 : metaView o4 = metaView o3 := by
    rcases htl : st.tilde with - | tl
    · rw [htl] at h4
      cases h4
      rfl
    · rcases hsr : st.string with - | sr
      · rw [htl, hsr] at h4
        cases h4
        rfl
      · rcases hbl : st.blob with - | bl
        · rw [htl, hsr, hbl] at h4
          cases h4
          rfl
        · rw [htl, hsr, hbl] at h4
          exact dotnet_parse_tilde_meta _ _ _ _ _ _ _ _ h4
  have e5 : metaView out' = metaView o4 := by
    rcases hu : st.us with - | u
    · rw [hu] at h
      cases h
      rfl
    · rw [hu] at h
      exact dotnet_parse_us_meta _ _ _ _ _ _ h
  exact e5.trans (e4.trans e3)

/-! ### The probe as a boolean predicate (claim C7).

The following three functions transcribe the claim's checklist (with the
amended 64-bit `NumberOfRvaAndSizes` condition) as a total boolean
predicate over direct byte reads; the theorems below prove the probe of
the source model computes exactly this predicate. -/

/-- Image-flavour checks of the claim: 64-bit images need
`NumberOfRvaAndSizes` at least 14, 32-bit DLLs pass, 32-bit non-DLLs need a
reachable entry point starting with the bytes `0xFF 0x25`. -/
def probeFlavorSpec (pe : PEImage) : Bool :=
  if pe.is64 then decide (¬ pe.numberOfRvaAndSizes < 14)
  else if pe.isDll then true
  else
    let eo := pe.rvaToOff pe.entryPointRVA
    if eo < 0 ∨ ¬ fits pe eo 2 then false
    else decide (byteAt pe eo.toNat = 0xFF ∧ byteAt pe (eo.toNat + 1) = 0x25)

/-- Metadata-root checks of the claim: reachable 16-byte header, `BSJB`
magic, version length in `[1, 255]`, a multiple of 4 and inside the
buffer. -/
def probeMetaSpec (pe : PEImage) (mr : Int) : Bool :=
  if ¬ fits pe mr 16 then false
  else if leVal pe mr.toNat 4 ≠ 0x424A5342 then false
  else
    let l := leVal pe (mr.toNat + 12) 4
    if l = 0 ∨ l > 255 ∨ l % 4 ≠ 0 ∨ ¬ fits pe (mr + 16) l then false
    else probeFlavorSpec pe

/-- The claim's probe checklist: COM-descriptor directory present, CLI
header reachable with declared size 72, then the metadata-root and flavour
checks. -/
def probeSpecAmended (pe : PEImage) : Bool :=
  match pe.comDir with
  | none => false
  | some va =>
    let off := pe.rvaToOff va
    if off < 0 ∨ ¬ fits pe off 72 then false
    else if leVal pe off.toNat 4 ≠ 72 then false
    else probeMetaSpec pe (pe.rvaToOff (leVal pe (off.toNat + 8) 4))

theorem probeFlavor_eq (pe : PEImage) :
    probeFlavor pe = some (probeFlavorSpec pe) := by
  unfold probeFlavor probeFlavorSpec
  by_cases h64 : pe.is64 = true
  · rw [if_pos h64, if_pos h64]
    by_cases hn : pe.numberOfRvaAndSizes < 14
    · rw [if_pos hn]
      simp [hn]
    · rw [if_neg hn]
      simp [hn]
  · rw [if_neg h64, if_neg h64]
    by_cases hd : pe.isDll = true
    · rw [if_neg (show ¬ (¬ pe.isDll = true) from fun hx => hx hd), if_pos hd]
    · rw [if_pos (show ¬ pe.isDll = true from hd), if_neg hd]
      dsimp only
      by_cases he : pe.rvaToOff pe.entryPointRVA < 0 ∨
          ¬ fits pe (pe.rvaToOff pe.entryPointRVA) 2 = true
      · rw [if_pos he, if_pos he]
      · rw [if_neg he, if_neg he]
        rw [not_or, not_lt, not_not] at he
        obtain ⟨h0le, hfit⟩ := he
        rcases fits_iff.mp hfit with ⟨-, -, h2⟩
        rw [readLE_eq_some h0le (by push_cast at h2 ⊢; omega), leVal_one]
        simp only [Option.bind_eq_bind, Option.some_bind]
        rw [readLE_eq_some (by omega) (by push_cast at h2 ⊢; omega), leVal_one,
          toNat_add_one h0le]
        simp only [Option.bind_eq_bind, Option.some_bind]
        by_cases hff : byteAt pe (pe.rvaToOff pe.entryPointRVA).toNat = 0xFF ∧
            byteAt pe ((pe.rvaToOff pe.entryPointRVA).toNat + 1) = 0x25
        · rw [if_pos hff]
          simp [hff]
        · rw [if_neg hff]
          simp [hff]

theorem probeMetadata_eq (pe : PEImage) (mr : Int) :
    probeMetadata pe mr = some (probeMetaSpec pe mr) := by
  unfold probeMetadata probeMetaSpec
  by_cases h16 : fits pe mr 16 = true
  · rw [if_neg (show ¬ (¬ fits pe mr 16 = true) from fun hx => hx h16),
      if_neg (show ¬ (¬ fits pe mr 16 = true) from fun hx => hx h16)]
    rcases fits_iff.mp h16 with ⟨-, h0le, hle⟩
    rw [readLE_eq_some h0le (by push_cast at hle ⊢; omega)]
    simp only [Option.bind_eq_bind, Option.some_bind]
    by_cases hmagic : leVal pe mr.toNat 4 ≠ 0x424A5342
    · rw [if_pos hmagic, if_pos hmagic]
    · rw [if_neg hmagic, if_neg hmagic]
      rw [readLE_eq_some (by omega) (by push_cast at hle ⊢; omega)]
      rw [show (mr + 12).toNat = mr.toNat + 12 from by omega]
      simp only [Option.bind_eq_bind, Option.some_bind]
      by_cases hlen : leVal pe (mr.toNat + 12) 4 = 0 ∨
          leVal pe (mr.toNat + 12) 4 > 255 ∨
          leVal pe (mr.toNat + 12) 4 % 4 ≠ 0 ∨
          ¬ fits pe (mr + 16) (leVal pe (mr.toNat + 12) 4) = true
      · rw [if_pos hlen, if_pos hlen]
      · rw [if_neg hlen, if_neg hlen]
        exact probeFlavor_eq pe
  · rw [if_pos (show ¬ fits pe mr 16 = true from h16),
      if_pos (show ¬ fits pe mr 16 = true from h16)]

theorem dotnet_is_dotnet_eq (pe : PEImage) :
    dotnet_is_dotnet pe = some (probeSpecAmended pe) := by
  unfold dotnet_is_dotnet probeSpecAmended
  cases hcom : pe.comDir with
  | none => rfl
  | some va =>
    dsimp only
    by_cases h1 : pe.rvaToOff va < 0 ∨ ¬ fits pe (pe.rvaToOff va) 72 = true
    · rw [if_pos h1, if_pos h1]
    · rw [if_neg h1, if_neg h1]
      rw [not_or, not_lt, not_not] at h1
      obtain ⟨h0le, hfit⟩ := h1
      rcases fits_iff.mp hfit with ⟨-, -, h72⟩
      rw [readLE_eq_some h0le (by push_cast at h72 ⊢; omega)]
      simp only [Option.bind_eq_bind, Option.some_bind]
      by_cases h2 : leVal pe (pe.rvaToOff va).toNat 4 ≠ 72
      · rw [if_pos h2, if_pos h2]
      · rw [if_neg h2, if_neg h2]
        rw [readLE_eq_some (by omega) (by push_cast at h72 ⊢; omega)]
        rw [show (pe.rvaToOff va + 8).toNat = (pe.rvaToOff va).toNat + 8 from by omega]
        simp only [Option.bind_eq_bind, Option.some_bind]
        exact probeMetadata_eq pe _

/-- The stream-directory walk emits at most one record per declared
stream. -/
theorem streamLoop_len (pe : PEImage) :
    ∀ (n : Nat) (hdrOff : Int) (st st' : StreamsSt),
      streamLoop pe n hdrOff st = some st' →
      st'.recs.length ≤ st.recs.length + n := by
  intro n
  induction n with
  | zero =>
    intro hdrOff st st' h
    cases h
    omega
  | succ n ih =>
    intro hdrOff st st' h
    unfold streamLoop at h
    split at h
    · cases h
      omega
    · split at h
      · cases h
        omega
      · obtain ⟨window, -, h⟩ := Option.bind_eq_some.mp h
        split at h
        · cases h
          omega
        · obtain ⟨offv, -, h⟩ := Option.bind_eq_some.mp h
          obtain ⟨sizev, -, h⟩ := Option.bind_eq_some.mp h
          have hlen := ih _ _ _ h
          rw [(updateRefs_fields _ _ _).1] at hlen
          simp only [List.length_append, List.length_cons, List.length_nil] at hlen
          omega

/-- Case split of the top-level parse: either the probe predicate fails and
the output is exactly `is_dotnet = 0`, or it passes and the output is
`is_dotnet = 1` (possibly refined by the metadata stages). -/
theorem dotnet_parse_com_cases (pe : PEImage) (out : Output)
    (h : dotnet_parse_com pe = some out) :
    (probeSpecAmended pe = false ∧ out = { emptyOutput with is_dotnet := some 0 }) ∨
    (probeSpecAmended pe = true ∧
      (out = { emptyOutput with is_dotnet := some 1 } ∨
       ∃ metadataRoot cliOff : Int,
         dotnet_parse_com_md pe metadataRoot cliOff
           { emptyOutput with is_dotnet := some 1 } = some out)) := by
  unfold dotnet_parse_com at h
  obtain ⟨probe, hpr, h⟩ := Option.bind_eq_some.mp h
  rw [dotnet_is_dotnet_eq] at hpr
  cases hpr
  cases hval : probeSpecAmended pe with
  | false =>
    rw [hval] at h
    rw [if_pos (show ¬ false = true from by simp)] at h
    cases h
    exact Or.inl ⟨rfl, rfl⟩
  | true =>
    rw [hval] at h
    rw [if_neg (show ¬ ¬ true = true from by simp)] at h
    refine Or.inr ⟨rfl, ?_⟩
    rcases hcom : pe.comDir with - | va
    · rw [hcom] at h
      cases h
      exact Or.inl rfl
    · rw [hcom] at h
      dsimp only at h
      split at h
      · cases h
        exact Or.inl rfl
      · obtain ⟨mdVA, -, h⟩ := Option.bind_eq_some.mp h
        split at h
        · cases h
          exact Or.inl rfl
        · exact Or.inr ⟨_, _, h⟩

/-- Field behaviour of the metadata stages: `is_dotnet` is never touched,
and the stream report is either untouched or set from a walk over at most
`ns` headers, where `ns` was read as a single byte. -/
theorem dotnet_parse_com_md_fields (pe : PEImage) (metadataRoot cliOff : Int)
    (out0 out' : Output)
    (h : dotnet_parse_com_md pe metadataRoot cliOff out0 = some out') :
    out'.is_dotnet = out0.is_dotnet ∧
    ((out'.streams = out0.streams ∧
        out'.number_of_streams = out0.number_of_streams) ∨
      ∃ ns : Nat, ns ≤ 255 ∧ out'.streams.length ≤ ns ∧
        out'.number_of_streams = some out'.streams.length) := by
  unfold dotnet_parse_com_md at h
  obtain ⟨mdLen, -, h⟩ := Option.bind_eq_some.mp h
  split at h
  · cases h
    exact ⟨rfl, Or.inl ⟨rfl, rfl⟩⟩
  · obtain ⟨ver, -, h⟩ := Option.bind_eq_some.mp h
    dsimp only at h
    split at h
    · cases h
      refine ⟨?_, Or.inl ⟨?_, ?_⟩⟩ <;>
        (cases ver.findIdx? (fun x => decide (x = 0)) <;> rfl)
    · obtain ⟨ns, hns, h⟩ := Option.bind_eq_some.mp h
      obtain ⟨so, hso, h⟩ := Option.bind_eq_some.mp h
      have hm := dotnet_parse_stages_meta _ _ _ _ _ _ h
      unfold dotnet_parse_stream_headers at hso
      obtain ⟨st, hsl, hso⟩ := Option.bind_eq_some.mp hso
      cases hso
      have hlen := streamLoop_len pe ns _ _ _ hsl
      have hns255 : ns < 256 := readLE_one_lt hns
      have h1 := congrArg (fun p => p.1) hm
      have h2 := congrArg (fun p => p.2.1) hm
      have h3 := congrArg (fun p => p.2.2) hm
      simp only [metaView] at h1 h2 h3
      refine ⟨?_, Or.inr ⟨ns, by omega, ?_, ?_⟩⟩
      · rw [h1]
        cases ver.findIdx? (fun x => decide (x = 0)) <;> rfl
      · rw [h2, List.length_map]
        simpa using hlen
      · rw [h2, h3, List.length_map]

/-! ### Concrete modules used by the claim witnesses and counterexamples. -/

/-- A 4-byte buffer whose last four bytes are exactly `C0 00 00 05`. -/
def cexPe2 : PEImage := ⟨[0xC0, 0x00, 0x00, 0x05], none, fun _ => 0, false, false, 0, 0⟩

/-- A 31-byte table/heap image: a CustomAttribute row with a huge Type
index (row 0), a fully-chasing row whose TypeRef Name index is unresolvable
(row 1), a MemberRef row at 12, a TypeRef row at 18 and a blob heap at 24
holding the value blob `05 01 00 01 4C`. -/
def pe3 : PEImage :=
  ⟨[0x0E, 0x00, 0x43, 0x1F, 0x01, 0x00,
    0x0E, 0x00, 0x0B, 0x00, 0x01, 0x00,
    0x09, 0x00, 0x00, 0x00, 0x00, 0x00,
    0x00, 0x00, 0x00, 0x00, 0x00, 0x00,
    0x00, 0x05, 0x01, 0x00, 0x01, 0x4C, 0x00],
   none, fun _ => 0, false, false, 0, 0⟩

/-- Pass-2 context over `pe3`: default index sizes, `#Strings` offset far
out of range (every name lookup fails), blob heap at 24. -/
def c3ctx : T2Ctx :=
  { pe := pe3, valid := 0, rowOffB := 0, resourceBase := 0, rows := {}, isz := {},
    strOff := 1000000, blobBase := 24 }

/-- A stream directory declaring two streams, both named `#GUID`, with
references `(100, 1)` and `(200, 2)`. -/
def cexPe5 : PEImage :=
  ⟨[100, 0, 0, 0, 1, 0, 0, 0, 0x23, 0x47, 0x55, 0x49, 0x44, 0, 0, 0,
    200, 0, 0, 0, 2, 0, 0, 0, 0x23, 0x47, 0x55, 0x49, 0x44, 0, 0, 0] ++
      List.replicate 24 0,
   none, fun _ => 0, false, false, 0, 0⟩

/-- The stream state `dotnet_parse_stream_headers` computes on `cexPe5`. -/
def st5val : StreamsSt :=
  { recs := [([0x23, 0x47, 0x55, 0x49, 0x44], 100, 1),
             ([0x23, 0x47, 0x55, 0x49, 0x44], 200, 2)]
    tilde := none, guid := some ⟨200, 2⟩, string := none, blob := none, us := none }

/-- The output record `dotnet_parse_stream_headers` computes on `cexPe5`. -/
def out5val : Output :=
  { emptyOutput with
    streams := [([0x23, 0x47, 0x55, 0x49, 0x44], (100 : Int), 1),
                ([0x23, 0x47, 0x55, 0x49, 0x44], (200 : Int), 2)]
    number_of_streams := some 2 }

/-- A 4-byte buffer whose first row-count slot holds 10001. -/
def pe6 : PEImage := ⟨[0x11, 0x27, 0, 0], none, fun _ => 0, false, false, 0, 0⟩

/-- Pass-2 context over `pe6` with only bit 0 (Module) present. -/
def c6 : T2Ctx :=
  { pe := pe6, valid := 1, rowOffB := 0, resourceBase := 0, rows := {}, isz := {},
    strOff := 0, blobBase := 0 }

/-- Pass-2 context over `pe6` with only bit 7 (`ParamPtr`, no switch case)
present. -/
def c10ctx : T2Ctx :=
  { pe := pe6, valid := 128, rowOffB := 0, resourceBase := 0, rows := {}, isz := {},
    strOff := 0, blobBase := 0 }

/-- Pass-2 state at the start of the row-count slots. -/
def s6 : T2St := { tableOff := 4, matchedBits := 0, out := emptyOutput }

/-- A 92-byte module that passes every probe check as a 32-bit DLL: CLI
header at 0 with size 72 and metadata VA 72, `BSJB` magic at 72, version
length 4, version `v1`. -/
def pe7buf : List Nat :=
  [72, 0, 0, 0, 0, 0, 0, 0, 72, 0, 0, 0] ++ List.replicate 60 0 ++
  [0x42, 0x53, 0x4A, 0x42, 0, 0, 0, 0, 0, 0, 0, 0, 4, 0, 0, 0, 0x76, 0x31, 0, 0]

def pe7 : PEImage := ⟨pe7buf, some 0, fun r => (r : Int), false, true, 0, 0⟩

/-- What `dotnet_parse_com` computes on `pe7`. -/
def out7 : Output :=
  { emptyOutput with is_dotnet := some 1, version := some [0x76, 0x31] }

/-- The same bytes as a 64-bit image whose `NumberOfRvaAndSizes` is 0. -/
def pe64 : PEImage := ⟨pe7buf, some 0, fun r => (r : Int), true, false, 0, 0⟩

/-- A 223-byte module that parses fully: probe passes, three streams
(`#~`, `#Strings`, `#Blob`), one TypeRef/MemberRef/CustomAttribute row
each, strings heap holding "X" at index 1, blob heap holding the value
blob. -/
def buf8 : List Nat :=
  [72, 0, 0, 0, 0, 0, 0, 0, 72, 0, 0, 0] ++ List.replicate 60 0 ++
  [0x42, 0x53, 0x4A, 0x42, 0, 0, 0, 0, 0, 0, 0, 0, 4, 0, 0, 0, 0x76, 0x31, 0, 0] ++
  [0, 0, 3, 0] ++
  [88, 0, 0, 0, 96, 0, 0, 0, 0x23, 0x7E, 0, 0] ++
  [148, 0, 0, 0, 3, 0, 0, 0, 0x23, 0x53, 0x74, 0x72, 0x69, 0x6E, 0x67, 0x73, 0, 0, 0, 0] ++
  [142, 0, 0, 0, 6, 0, 0, 0, 0x23, 0x42, 0x6C, 0x6F, 0x62, 0, 0, 0] ++
  List.replicate 16 0 ++
  [0, 0, 0, 0, 0, 0, 0, 0, 0x02, 0x14, 0, 0, 0, 0, 0, 0, 0, 0, 0, 0, 0, 0, 0, 0] ++
  [1, 0, 0, 0, 1, 0, 0, 0, 1, 0, 0, 0] ++
  [0, 0, 1, 0, 0, 0] ++
  [9, 0, 0, 0, 0, 0] ++
  [0x0E, 0, 0x0B, 0, 1, 0] ++
  [0x00, 0x05, 0x01, 0x00, 0x01, 0x4C] ++
  [0x00, 0x58, 0x00]

def pe8full : PEImage := ⟨buf8, some 0, fun r => (r : Int), false, true, 0, 0⟩

/-- The same module truncated one byte before the end of the strings
heap: the truncation unterminates the TypeRef name "X". -/
def pe8trunc : PEImage := ⟨buf8.take 222, some 0, fun r => (r : Int), false, true, 0, 0⟩

/-- Claim C7 as literally stated: the same probe checklist but with no
condition at all on 64-bit images (the claim lists the entry-point check
only for 32-bit non-DLL images and nothing else flavour-specific). -/
def probeSpecClaimed (pe : PEImage) : Bool :=
  match pe.comDir with
  | none => false
  | some va =>
    let off := pe.rvaToOff va
    if off < 0 ∨ ¬ fits pe off 72 then false
    else if leVal pe off.toNat 4 ≠ 72 then false
    else
      let mr := pe.rvaToOff (leVal pe (off.toNat + 8) 4)
      if ¬ fits pe mr 16 then false
      else if leVal pe mr.toNat 4 ≠ 0x424A5342 then false
      else
        let l := leVal pe (mr.toNat + 12) 4
        if l = 0 ∨ l > 255 ∨ l % 4 ≠ 0 ∨ ¬ fits pe (mr + 16) l then false
        else if pe.is64 then true
        else if pe.isDll then true
        else
          let eo := pe.rvaToOff pe.entryPointRVA
          if eo < 0 ∨ ¬ fits pe eo 2 then false
          else decide (byteAt pe eo.toNat = 0xFF ∧ byteAt pe (eo.toNat + 1) = 0x25)

/-! ### The claims. -/

/-- Claim C1: for every input module (any byte buffer, any collaborator
oracles), the top-level parse `dotnet_parse_com` terminates with a result
and never reads a byte outside `[0, data_size)` — in this model every
dereference goes through the checked reads, whose failure would make the
result `none`. -/
theorem dotnet_parse_com_total_safe (pe : PEImage) :
    (dotnet_parse_com pe).isSome = true :=
  dotnet_parse_com_isSome pe

/-- Claim C2 (amended): the blob decoder computes exactly the ECMA-335
prefix table with the trailing-byte decrement, where the 4-byte form
additionally requires a fifth byte after the prefix to lie inside the
buffer (`offset + 4 < data_size`), not just the four prefix bytes. -/
theorem blob_entry_decodes_per_spec (pe : PEImage) (off : Int) :
    dotnet_parse_blob_entry pe off = some (blobEntrySpec pe off) :=
  blob_entry_eq_spec pe off

/-- Claim C2 counterexample: the bytes `C0 00 00 05` lie fully inside a
4-byte buffer, yet the decoder fails with `(0, 0)` instead of returning
length 4 with 4 bytes consumed, because no fifth byte follows. -/
theorem blob_entry_four_byte_cex :
    fits cexPe2 0 4 = true ∧
    dotnet_parse_blob_entry cexPe2 0 = some ⟨0, 0⟩ ∧
    dotnet_parse_blob_entry cexPe2 0 ≠ some ⟨4, 4⟩ := by
  decide

/-- Claim C3 (amended): per CustomAttribute row, a `skip` outcome (tag
mismatch, name mismatch or blob-decode failure) abandons only that row, a
`setTl` outcome records the value and continues, but a `stop` outcome —
which arises exactly from one of the three bounds-oracle failures of the
chase (the row itself, the resolved MemberRef row, or the resolved TypeRef
row) — abandons the whole remaining CustomAttribute table. -/
theorem ca_row_failure_policy (c : T2Ctx) (pSize tSize rowSize : Nat)
    (trPtr : Int) (trSize : Nat) (mrPtr : Int) (mrSize : Nat) (n : Nat)
    (rowPtr : Int) (out : Output) (r : CAStep)
    (h : caRowStep c pSize tSize rowSize trPtr trSize mrPtr mrSize rowPtr = some r) :
    (r = CAStep.skip →
      caLoop c pSize tSize rowSize trPtr trSize mrPtr mrSize (n + 1) rowPtr out =
        caLoop c pSize tSize rowSize trPtr trSize mrPtr mrSize n
          (rowPtr + (rowSize : Int)) out) ∧
    (∀ v, r = CAStep.setTl v →
      caLoop c pSize tSize rowSize trPtr trSize mrPtr mrSize (n + 1) rowPtr out =
        caLoop c pSize tSize rowSize trPtr trSize mrPtr mrSize n
          (rowPtr + (rowSize : Int)) { out with typelib := some v }) ∧
    (r = CAStep.stop →
      caLoop c pSize tSize rowSize trPtr trSize mrPtr mrSize (n + 1) rowPtr out =
        some out ∧
      (fits c.pe rowPtr rowSize = false ∨
        (∃ tv, readLE c.pe (rowPtr + (pSize : Int)) tSize = some tv ∧
          fits c.pe (mrPtr + ((mrSize * decIndex (tv >>> 3) : Nat) : Int)) mrSize
            = false) ∨
        (∃ tv cls, readLE c.pe (rowPtr + (pSize : Int)) tSize = some tv ∧
          readLE c.pe (mrPtr + ((mrSize * decIndex (tv >>> 3) : Nat) : Int))
            c.isz.memberref = some cls ∧
          fits c.pe (trPtr + ((trSize * decIndex (cls >>> 3) : Nat) : Int)) trSize
            = false))) := by
  refine ⟨?_, ?_, ?_⟩
  · intro hr
    subst hr
    exact caLoop_succ_skip c pSize tSize rowSize trPtr trSize mrPtr mrSize n rowPtr out h
  · intro v hr
    subst hr
    exact caLoop_succ_set c pSize tSize rowSize trPtr trSize mrPtr mrSize n rowPtr out v h
  · intro hr
    subst hr
    exact ⟨caLoop_succ_stop c pSize tSize rowSize trPtr trSize mrPtr mrSize n rowPtr out h,
      caRowStep_stop c pSize tSize rowSize trPtr trSize mrPtr mrSize rowPtr h⟩

set_option maxRecDepth 100000 in
/-- Claim C3 witness: on the concrete context `c3ctx`, the row at offset 2
has a mismatched Parent tag, is skipped, and the loop continues with the
next row. -/
theorem ca_row_failure_policy_witness :
    caLoop c3ctx 2 2 6 18 6 12 6 1 2 emptyOutput =
      caLoop c3ctx 2 2 6 18 6 12 6 0 (2 + ((6 : Nat) : Int)) emptyOutput :=
  (ca_row_failure_policy c3ctx 2 2 6 18 6 12 6 0 2 emptyOutput CAStep.skip
    (by decide)).1 rfl

set_option maxRecDepth 100000 in
/-- Claim C3 counterexample: a bounds-check failure while chasing one row
(row 0 of `c3ctx`, whose Type index points the MemberRef lookup out of the
buffer) stops the whole loop, so the remaining row — which would have set
`typelib` — is never processed; the claim's "continues with the next row"
is false for bounds failures. -/
theorem ca_failure_continue_cex : ¬ caFailuresAlwaysContinue := by
  intro hcl
  have h := hcl c3ctx 2 2 6 18 6 12 6 1 0 emptyOutput (Or.inl (by decide))
  have hne : caLoop c3ctx 2 2 6 18 6 12 6 (1 + 1) 0 emptyOutput ≠
      caLoop c3ctx 2 2 6 18 6 12 6 1 (0 + ((6 : Nat) : Int)) emptyOutput := by decide
  exact hne h

set_option maxRecDepth 100000 in
/-- Claim C4 (code bug): on `c3ctx` the TypeRef Name index of row 1 reads
as 0 and the name lookup fails (`none`), so the chased name is not the
string "GuidAttribute" — yet the row still sets `typelib`, because the C
code's test `name != NULL && strncmp(name, "GuidAttribute", 13) != 0` lets
every unresolvable name fall through to the value decode. -/
theorem ca_unresolved_name_sets_typelib :
    pe_get_dotnet_string c3ctx.pe c3ctx.strOff 0 = none ∧
    readLE c3ctx.pe (18 + ((resolutionScopeSize c3ctx.rows : Nat) : Int))
      c3ctx.isz.string = some 0 ∧
    caRowStep c3ctx 2 2 6 18 6 12 6 6 = some (CAStep.setTl [0x4C]) := by
  decide

/-- Claim C5 (amended): after the stream-directory walk, the `#~`/`#-`,
`#Strings` and `#US` references hold the first stream of that name, but
the `#GUID` and `#Blob` references hold the LAST stream of that name —
their branches of the else-if chain lack the `== NULL` guard and overwrite
on every occurrence. -/
theorem stream_refs_policy (pe : PEImage) (offset metadataRoot : Int)
    (numStreams : Nat) (out : Output) (st : StreamsSt) (out' : Output)
    (h : dotnet_parse_stream_headers pe offset metadataRoot numStreams out =
      some (st, out')) :
    st.tilde = ((st.recs.find? fun r => isTildeN r.1).map streamRefOf) ∧
    st.string = ((st.recs.find? fun r => isStringsN r.1).map streamRefOf) ∧
    st.us = ((st.recs.find? fun r => isUsN r.1).map streamRefOf) ∧
    st.guid = ((st.recs.reverse.find? fun r => isGuidN r.1).map streamRefOf) ∧
    st.blob = ((st.recs.reverse.find? fun r => isBlobN r.1).map streamRefOf) := by
  unfold dotnet_parse_stream_headers at h
  obtain ⟨st0, hst0, h⟩ := Option.bind_eq_some.mp h
  cases h
  obtain ⟨ns, hrecs, ht, hs, hu, hg, hb⟩ :=
    streamLoop_refs pe numStreams offset {} st hst0
  have hns : st.recs = ns := by simpa using hrecs
  rw [hns]
  refine ⟨?_, ?_, ?_, ?_, ?_⟩
  · rw [ht, foldl_first_eq_find]
    exact Option.none_or
  · rw [hs, foldl_first_eq_find]
    exact Option.none_or
  · rw [hu, foldl_first_eq_find]
    exact Option.none_or
  · rw [hg, foldl_last_eq_rev]
    exact Option.or_none
  · rw [hb, foldl_last_eq_rev]
    exact Option.or_none

set_option maxRecDepth 100000 in
/-- Claim C5 witness: the two-`#GUID` directory of `cexPe5`, whose
computed state matches the first/last policy. -/
theorem stream_refs_policy_witness :
    st5val.tilde = ((st5val.recs.find? fun r => isTildeN r.1).map streamRefOf) ∧
    st5val.string = ((st5val.recs.find? fun r => isStringsN r.1).map streamRefOf) ∧
    st5val.us = ((st5val.recs.find? fun r => isUsN r.1).map streamRefOf) ∧
    st5val.guid = ((st5val.recs.reverse.find? fun r => isGuidN r.1).map streamRefOf) ∧
    st5val.blob = ((st5val.recs.reverse.find? fun r => isBlobN r.1).map streamRefOf) :=
  stream_refs_policy cexPe5 0 0 2 emptyOutput st5val out5val (by decide)

set_option maxRecDepth 100000 in
/-- Claim C5 counterexample: two streams named `#GUID`; the retained
`#GUID` reference is the second one `(200, 2)`, not the first occurrence
`(100, 1)` — a later stream does replace the first. -/
theorem stream_first_occurrence_cex :
    ((streamLoop cexPe5 2 0 {}).map fun s => s.guid) = some (some ⟨200, 2⟩) ∧
    ((streamLoop cexPe5 2 0 {}).map fun s =>
      (s.recs.find? fun r => isGuidN r.1).map streamRefOf) = some (some ⟨100, 1⟩) ∧
    (⟨200, 2⟩ : StreamRef) ≠ ⟨100, 1⟩ := by
  decide

/-- Claim C6: in the table pass, a present bit whose row count reads above
10000 aborts the pass at that bit: the state (cursor, captured tables,
output) is returned exactly as it was, so no field of that or any later
table is extracted and earlier fields are kept. -/
theorem rowcount_cap_aborts (c : T2Ctx) (bit : Nat) (rest : List Nat)
    (s : T2St) (numRows : Nat)
    (hpres : (c.valid >>> bit) &&& 1 = 1)
    (hread : readLE c.pe (c.rowOffB + ((4 * s.matchedBits : Nat) : Int)) 4 =
      some numRows)
    (hbig : numRows > 10000) :
    tilde2Go c (bit :: rest) s = some s := by
  rw [tilde2Go_cons c bit rest s hpres]
  rw [if_neg (show ¬ ¬ fits c.pe (c.rowOffB + ((4 * s.matchedBits : Nat) : Int)) 4 = true
    from not_not_intro (readLE_some_fits hread))]
  rw [hread]
  simp only [Option.bind_eq_bind, Option.some_bind]
  rw [if_pos hbig]

set_option maxRecDepth 100000 in
/-- Claim C6 witness: a Module table declaring 10001 rows aborts the pass
with the state unchanged. -/
theorem rowcount_cap_aborts_witness : tilde2Go c6 [0] s6 = some s6 :=
  rowcount_cap_aborts c6 0 [] s6 10001 (by decide) (by decide) (by decide)

/-- Claim C7 (amended): the probe computes exactly the claim's checklist
AMENDED with one more check — on a 64-bit image `NumberOfRvaAndSizes` must
not be below 14; when the predicate fails the parse output is exactly
`is_dotnet = 0` with no other field set, and when it passes `is_dotnet`
is 1. -/
theorem probe_gate (pe : PEImage) (out : Output)
    (h : dotnet_parse_com pe = some out) :
    dotnet_is_dotnet pe = some (probeSpecAmended pe) ∧
    (probeSpecAmended pe = false → out = { emptyOutput with is_dotnet := some 0 }) ∧
    (probeSpecAmended pe = true → out.is_dotnet = some 1) := by
  refine ⟨dotnet_is_dotnet_eq pe, ?_, ?_⟩
  · intro hf
    rcases dotnet_parse_com_cases pe out h with ⟨-, he⟩ | ⟨ht, -⟩
    · exact he
    · rw [ht] at hf
      cases hf
  · intro ht
    rcases dotnet_parse_com_cases pe out h with ⟨hf, -⟩ | ⟨-, he | ⟨mr, co, hmd⟩⟩
    · rw [hf] at ht
      cases ht
    · rw [he]
    · rw [(dotnet_parse_com_md_fields pe mr co _ out hmd).1]

set_option maxRecDepth 100000 in
/-- Claim C7 witness: the probe-passing 32-bit DLL `pe7`. -/
theorem probe_gate_witness :
    dotnet_is_dotnet pe7 = some (probeSpecAmended pe7) ∧
    (probeSpecAmended pe7 = false → out7 = { emptyOutput with is_dotnet := some 0 }) ∧
    (probeSpecAmended pe7 = true → out7.is_dotnet = some 1) :=
  probe_gate pe7 out7 (by decide)

set_option maxRecDepth 100000 in
/-- Claim C7 counterexample: the 64-bit image `pe64` passes every check the
claim lists (`probeSpecClaimed`), yet the parse sets `is_dotnet = 0` and
leaves every other field unset, because of the unlisted
`NumberOfRvaAndSizes < 14` rejection. -/
theorem probe_gate_cex :
    probeSpecClaimed pe64 = true ∧
    ((dotnet_parse_com pe64).map fun o => o.is_dotnet) = some (some 0) ∧
    ((dotnet_parse_com pe64).map fun o => o.version) = some none := by
  decide

set_option maxRecDepth 100000 in
/-- Claim C8 (code bug): truncating `buf8` at byte 222 (a strict prefix)
makes the full parse's `typelib = none` become `typelib = "L"` in the
truncated parse: the truncation unterminates the TypeRef name, the name
lookup turns `none`, and the inverted NULL test of the GuidAttribute check
then accepts the row — the truncated buffer sets a field the full buffer
leaves unset. -/
theorem truncation_sets_more_fields :
    pe8trunc.data = pe8full.data.take 222 ∧
    pe8trunc.data.length < pe8full.data.length ∧
    ((dotnet_parse_com pe8full).map fun o => o.typelib) = some none ∧
    ((dotnet_parse_com pe8trunc).map fun o => o.typelib) = some (some [0x4C]) := by
  decide

/-- Claim C9: the parse walks at most 255 stream headers and
`number_of_streams`, when set, equals the number of retained streams and
never exceeds 255 — the declared stream count is read as a single byte. -/
theorem stream_count_low_byte_bound (pe : PEImage) (out : Output)
    (h : dotnet_parse_com pe = some out) :
    out.streams.length ≤ 255 ∧
      ∀ n, out.number_of_streams = some n → n = out.streams.length ∧ n ≤ 255 := by
  rcases dotnet_parse_com_cases pe out h with ⟨-, he⟩ | ⟨-, he | ⟨mr, co, hmd⟩⟩
  · subst he
    refine ⟨by decide, ?_⟩
    intro n hn
    cases hn
  · subst he
    refine ⟨by decide, ?_⟩
    intro n hn
    cases hn
  · obtain ⟨-, hrest⟩ := dotnet_parse_com_md_fields pe mr co _ out hmd
    rcases hrest with ⟨hs, hn⟩ | ⟨ns, hns, hlen, hnum⟩
    · refine ⟨by rw [hs]; decide, ?_⟩
      intro n hn2
      rw [hn] at hn2
      cases hn2
    · refine ⟨by omega, ?_⟩
      intro n hn2
      rw [hnum] at hn2
      injection hn2 with hx
      exact ⟨hx.symm, by omega⟩

set_option maxRecDepth 100000 in
/-- Claim C9 witness: the module `pe7` (zero streams retained). -/
theorem stream_count_low_byte_bound_witness :
    out7.streams.length ≤ 255 ∧
      ∀ n, out7.number_of_streams = some n → n = out7.streams.length ∧ n ≤ 255 :=
  stream_count_low_byte_bound pe7 out7 (by decide)

/-- Claim C10: a present bit with no case in the 44-way switch makes the
table pass return immediately with the state unchanged — no table at that
or any higher bit is walked, fields already extracted are kept. -/
theorem unknown_table_bit_aborts (c : T2Ctx) (bit : Nat) (rest : List Nat)
    (s : T2St)
    (hpres : (c.valid >>> bit) &&& 1 = 1)
    (hunk : isHandledBit bit = false) :
    tilde2Go c (bit :: rest) s = some s := by
  rw [tilde2Go_cons c bit rest s hpres]
  split
  · rfl
  · next hfit =>
    rw [not_not] at hfit
    obtain ⟨v, hv⟩ := Option.isSome_iff_exists.mp (fits_readLE hfit)
    rw [hv]
    simp only [Option.bind_eq_bind, Option.some_bind]
    split
    · rfl
    · rw [tilde2Step_unhandled c bit v s hunk]
      rfl

set_option maxRecDepth 100000 in
/-- Claim C10 witness: bit 7 (`ParamPtr`) present aborts the pass. -/
theorem unknown_table_bit_aborts_witness : tilde2Go c10ctx [7] s6 = some s6 :=
  unknown_table_bit_aborts c10ctx 7 [] s6 (by decide) (by decide)

end Dotnet
